import Mathlib

/-!
# Colour value type of `framework/math/color/color.go`

A shallow embedding of the `Color` value type and of the operations on it,
together with the display settings of `settings/graphics.go`.

Modelling conventions.

* A `float32` or `float64` value is modelled by a rational number.
* In `Mix`, `Shift` and `LightenHSLuv`, where what is claimed depends on
  rounding, every arithmetic operation is followed by the rounding of its exact
  result to the nearest value of its type (`float32`, `float64` below: round to
  nearest, ties to even, gradual underflow), one operation at a time. The
  conversion `float64(x)` of a `float32` is exact and modelled as the identity.
* The other methods are embedded with the exact field operations of `ℚ` for
  `+ - * /`.
* Overflow to infinity and NaN are outside the model: a rounded operation
  stands for the machine operation as long as its result stays in the finite
  range of the type. A fused multiply-add is not modelled either.
* A `uint32` is a natural number below `2 ^ 32`; shifts are reduced modulo
  `2 ^ 32` as the machine does.
* The helpers `bmath.ClampF32`, `math32.Max`, `math32.Min` and `math32.Mod`
  live in packages whose sources are not part of the files embedded here; they
  are modelled from the specification's wording.
* The colour-space conversions `RGBToHSV`, `HSVToRGB`, `RGBToHSLuv` and
  `HSLuvToRGB` are not part of the embedded files either. Every method that
  calls one takes it as an argument, so what is proved holds for whatever
  conversion is supplied. A conversion returns its three results as a triple.
* The display settings of `settings/graphics.go` are embedded in the namespace
  `settings`; `int64` and `int32` fields are integers.
-/

/-! ## Floating-point rounding -/

namespace ieee754

/-- Rounding of a rational to the nearest integer; a value half-way between two
integers goes to the even one. -/
def roundHalfEven (y : ℚ) : ℤ :=
  if y - ⌊y⌋ < 1 / 2 then ⌊y⌋
  else if 1 / 2 < y - ⌊y⌋ then ⌊y⌋ + 1
  else if ⌊y⌋ % 2 = 0 then ⌊y⌋ else ⌊y⌋ + 1

/-- Exponent of the spacing of the format around a positive `x`: with `frac`
fraction bits, a value in `[2^e, 2^(e+1))` sits on the grid of multiples of
`2^(e - frac)`, and no grid is finer than `2^emin` (gradual underflow). -/
def ulpExp (frac : ℕ) (emin : ℤ) (x : ℚ) : ℤ :=
  max (Int.log 2 x - frac) emin

/-- Rounding of a non-negative rational to the nearest value of the format,
ties to even. -/
def roundMag (frac : ℕ) (emin : ℤ) (x : ℚ) : ℚ :=
  roundHalfEven (x / 2 ^ ulpExp frac emin x) * 2 ^ ulpExp frac emin x

/-- Rounding to the nearest value of the format, ties to even: the sign is
kept and the magnitude is rounded. Overflow to infinity is not modelled. -/
def roundFloat (frac : ℕ) (emin : ℤ) (x : ℚ) : ℚ :=
  if x < 0 then -roundMag frac emin (-x) else roundMag frac emin x

end ieee754

/-- The `float32` value nearest to `x`: 23 fraction bits, smallest spacing
`2^-149`. An arithmetic operation on `float32` values returns the `float32`
of its exact result. -/
def float32 (x : ℚ) : ℚ :=
  ieee754.roundFloat 23 (-149) x

/-- The `float64` value nearest to `x`: 52 fraction bits, smallest spacing
`2^-1074`. -/
def float64 (x : ℚ) : ℚ :=
  ieee754.roundFloat 52 (-1074) x

/-- The rationals that are finite `float32` values: rounding leaves them as they
are, and their magnitude is below `2^128`. -/
def IsFloat32 (x : ℚ) : Prop :=
  float32 x = x ∧ |x| < 2 ^ 128

instance (x : ℚ) : Decidable (IsFloat32 x) := by
  unfold IsFloat32; infer_instance

/-! ## Helpers from `bmath` and `math32` -/

namespace bmath

/-- Modelled from the spec: `bmath.ClampF32(v, lo, hi)`, whose source is not
among the embedded files. The specification says the argument "is clamped to
[0,1] before use (values outside range are silently clamped, not rejected)":
a value below `lo` becomes `lo`, a value above `hi` becomes `hi`, any other
value is returned as it is. -/
def ClampF32 (v lo hi : ℚ) : ℚ :=
  if v < lo then lo else if hi < v then hi else v

end bmath

namespace math32

/-- Modelled from the spec: `math32.Max(a, b)`, whose source is not among the
embedded files. The specification writes it `max(1, 1+amount)`: the larger of
the two arguments. -/
def Max (a b : ℚ) : ℚ :=
  if a < b then b else a

/-- Modelled from the spec: `math32.Min(a, b)`, whose source is not among the
embedded files. The specification writes it `min(1, channel*scale + amount)`:
the smaller of the two arguments. -/
def Min (a b : ℚ) : ℚ :=
  if b < a then b else a

/-- Modelled from the spec: `math32.Mod(x, y)`, whose source is not among the
embedded files. The specification describes "modulo-360 wraparound (negative
results pulled back into [0,360) by adding 360)": the remainder of `x / y`
after the quotient is truncated towards zero, so that the result carries the
sign of `x` and can be negative. -/
def Mod (x y : ℚ) : ℚ :=
  x - y * (Int.tdiv (x / y).num (x / y).den : ℤ)

end math32

/-! ## Display settings of `settings/graphics.go` -/

namespace settings

/-- The `graphics` struct. -/
structure graphics where
  Width : ℤ
  Height : ℤ
  WindowWidth : ℤ
  WindowHeight : ℤ
  Fullscreen : Bool
  VSync : Bool
  FPSCap : ℤ
  MSAA : ℤ
  deriving DecidableEq

/-- Function `initGraphics()`: the default configuration. -/
def initGraphics : graphics :=
  { Width := 1920
    Height := 1080
    WindowWidth := 1280
    WindowHeight := 720
    Fullscreen := false
    VSync := false
    FPSCap := 1000
    MSAA := 16 }

/-- The package variable `Graphics = initGraphics()`. -/
def Graphics : graphics :=
  initGraphics

/-- Method `gr.GetSize()`: the screen size when fullscreen, the window size
otherwise. -/
def graphics.GetSize (gr : graphics) : ℤ × ℤ :=
  if gr.Fullscreen then (gr.Width, gr.Height) else (gr.WindowWidth, gr.WindowHeight)

/-- Method `gr.GetWidth()`. -/
def graphics.GetWidth (gr : graphics) : ℤ :=
  if gr.Fullscreen then gr.Width else gr.WindowWidth

/-- Method `gr.GetHeight()`. -/
def graphics.GetHeight (gr : graphics) : ℤ :=
  if gr.Fullscreen then gr.Height else gr.WindowHeight

end settings

namespace color

/-! ## The `Color` type and its constructors -/

/-- The `Color` struct: `R, G, B, A float32`. -/
structure Color where
  R : ℚ
  G : ℚ
  B : ℚ
  A : ℚ
  deriving DecidableEq

/-- Constructor `NewRGBA(r, g, b, a)` stores the four channels as given. -/
def NewRGBA (r g b a : ℚ) : Color :=
  ⟨r, g, b, a⟩

/-- Constructor `NewRGB(r, g, b)` is `NewRGBA(r, g, b, 1.0)`. -/
def NewRGB (r g b : ℚ) : Color :=
  NewRGBA r g b 1

/-- Constructor `NewIRGBA(r, g, b, a uint8)` divides each 8-bit channel by 255.
A `uint8` argument is a number below 256. -/
def NewIRGBA (r g b a : Fin 256) : Color :=
  ⟨(r.val : ℚ) / 255, (g.val : ℚ) / 255, (b.val : ℚ) / 255, (a.val : ℚ) / 255⟩

/-- Constructor `NewIRGB(r, g, b)` is `NewIRGBA(r, g, b, 255)`. -/
def NewIRGB (r g b : Fin 256) : Color :=
  NewIRGBA r g b 255

/-- Constructor `NewLA(lightness, a)` is the grey
`NewRGBA(lightness, lightness, lightness, a)`. -/
def NewLA (lightness a : ℚ) : Color :=
  NewRGBA lightness lightness lightness a

/-- Constructor `NewL(lightness)` is `NewLA(lightness, 1.0)`. -/
def NewL (lightness : ℚ) : Color :=
  NewLA lightness 1

/-- Constructor `NewHSVA(h, s, v, a)`: the RGB triple `HSVToRGB(h, s, v)` with
alpha `a`. -/
def NewHSVA (HSVToRGB : ℚ → ℚ → ℚ → ℚ × ℚ × ℚ) (h s v a : ℚ) : Color :=
  let rgb := HSVToRGB h s v
  NewRGBA rgb.1 rgb.2.1 rgb.2.2 a

/-- Constructor `NewHSLuvA(h, s, l, a)`: the RGB triple `HSLuvToRGB(h, s, l)`
with alpha `a`. -/
def NewHSLuvA (HSLuvToRGB : ℚ → ℚ → ℚ → ℚ × ℚ × ℚ) (h s l a : ℚ) : Color :=
  let rgb := HSLuvToRGB h s l
  NewRGBA rgb.1 rgb.2.1 rgb.2.2 a

/-! ## Transforms -/

/-- Method `c.Mix(c1, t)`: `t = bmath.ClampF32(t, 0.0, 1.0)`, then every channel
`X` becomes `c.X + (c1.X - c.X)*t`, computed in `float32`: the difference, the
product and the sum are each rounded. -/
def Color.Mix (c c1 : Color) (t : ℚ) : Color :=
  let t := bmath.ClampF32 t 0 1
  NewRGBA
    (float32 (c.R + float32 (float32 (c1.R - c.R) * t)))
    (float32 (c.G + float32 (float32 (c1.G - c.G) * t)))
    (float32 (c.B + float32 (float32 (c1.B - c.B) * t)))
    (float32 (c.A + float32 (float32 (c1.A - c.A) * t)))

/-- Method `c.Darken(amount)`: `scale := math32.Max(1.0, 1.0+amount)` divides R, G
and B; alpha is copied. -/
def Color.Darken (c : Color) (amount : ℚ) : Color :=
  let scale := math32.Max 1 (1 + amount)
  NewRGBA (c.R / scale) (c.G / scale) (c.B / scale) c.A

/-- Method `c.Lighten(amount)`: `scale := math32.Max(1.0, 1.0+amount)` multiplies
R, G and B; alpha is copied. -/
def Color.Lighten (c : Color) (amount : ℚ) : Color :=
  let scale := math32.Max 1 (1 + amount)
  NewRGBA (c.R * scale) (c.G * scale) (c.B * scale) c.A

/-- Method `c.Lighten2(amount)`: `amount *= 0.5`, `scale := 1.0 + 0.5*amount`, and
each of R, G, B becomes `math32.Min(1.0, channel*scale+amount)`; alpha is copied. -/
def Color.Lighten2 (c : Color) (amount : ℚ) : Color :=
  let amount := amount * (1 / 2)
  let scale := 1 + (1 / 2) * amount
  NewRGBA
    (math32.Min 1 (c.R * scale + amount))
    (math32.Min 1 (c.G * scale + amount))
    (math32.Min 1 (c.B * scale + amount))
    c.A

/-- Method `c.Shade(amount)`: `Darken(-amount)` for a negative amount,
`Lighten(amount)` otherwise. -/
def Color.Shade (c : Color) (amount : ℚ) : Color :=
  if amount < 0 then c.Darken (-amount) else c.Lighten amount

/-- Method `c.Shade2(amount)`: `Darken(-amount)` for a negative amount,
`Lighten2(amount)` otherwise. -/
def Color.Shade2 (c : Color) (amount : ℚ) : Color :=
  if amount < 0 then c.Darken (-amount) else c.Lighten2 amount

/-- Method `c.Shift(h, s, v)`: with `h1, s1, v1 := RGBToHSV(c.R, c.G, c.B)`, the
hue is `hR := math32.Mod(h1+h, 360)`, and `hR += 360` when it is negative;
saturation and value are `bmath.ClampF32(s1+s, 0, 1)` and
`bmath.ClampF32(v1+v, 0, 1)`; the result is `NewHSVA(hR, sR, vR, c.A)`. The
three sums and the correction `hR + 360` are `float32` additions, each
rounded; the remainder is exact. -/
def Color.Shift (RGBToHSV HSVToRGB : ℚ → ℚ → ℚ → ℚ × ℚ × ℚ) (c : Color) (h s v : ℚ) :
    Color :=
  let hsv := RGBToHSV c.R c.G c.B
  let hR := math32.Mod (float32 (hsv.1 + h)) 360
  let hR := if hR < 0 then float32 (hR + 360) else hR
  let sR := bmath.ClampF32 (float32 (hsv.2.1 + s)) 0 1
  let vR := bmath.ClampF32 (float32 (hsv.2.2 + v)) 0 1
  NewHSVA HSVToRGB hR sR vR c.A

/-- Method `c.DarkenHSLuv(amount)`: `scale := math32.Min(0, 1.0-amount)`, and
with `h, s, l := RGBToHSLuv(c.R, c.G, c.B)` the result is
`NewHSLuvA(h, s, l*scale, c.A)`. -/
def Color.DarkenHSLuv (RGBToHSLuv HSLuvToRGB : ℚ → ℚ → ℚ → ℚ × ℚ × ℚ) (c : Color)
    (amount : ℚ) : Color :=
  let scale := math32.Min 0 (1 - amount)
  let hsl := RGBToHSLuv c.R c.G c.B
  NewHSLuvA HSLuvToRGB hsl.1 hsl.2.1 (hsl.2.2 * scale) c.A

/-- Method `c.LightenHSLuv(amount)`: with `h, s, l := RGBToHSLuv(c.R, c.G, c.B)`
the result is `NewHSLuvA(h, s, 100 - (100 - l) * float64(1 - amount), c.A)`.
The difference `1 - amount` is a `float32` subtraction; `100 - l`, the product
and the outer difference are `float64` operations; each is rounded. -/
def Color.LightenHSLuv (RGBToHSLuv HSLuvToRGB : ℚ → ℚ → ℚ → ℚ × ℚ × ℚ) (c : Color)
    (amount : ℚ) : Color :=
  let hsl := RGBToHSLuv c.R c.G c.B
  NewHSLuvA HSLuvToRGB hsl.1 hsl.2.1
    (float64 (100 - float64 (float64 (100 - hsl.2.2) * float32 (1 - amount)))) c.A

/-- Method `c.ShadeHSLuv(amount)`: `DarkenHSLuv(-amount)` for a negative amount,
`LightenHSLuv(amount)` otherwise. -/
def Color.ShadeHSLuv (RGBToHSLuv HSLuvToRGB : ℚ → ℚ → ℚ → ℚ × ℚ × ℚ) (c : Color)
    (amount : ℚ) : Color :=
  if amount < 0 then c.DarkenHSLuv RGBToHSLuv HSLuvToRGB (-amount)
  else c.LightenHSLuv RGBToHSLuv HSLuvToRGB amount

/-! ## Packing -/

/-- Conversion of a float to an integer as Go performs it: the fractional part
is discarded (truncation towards zero). -/
def truncToInt (x : ℚ) : ℤ :=
  Int.tdiv x.num x.den

/-- The conversion `uint32(x)` of a float: truncation towards zero, kept in
32 bits. For a value the type can represent (`0 ≤ x < 2 ^ 32`) this is the
integer part of `x`; for any other value the Go specification leaves the result
to the implementation, and the model takes the low 32 bits of the truncated
value. -/
def toUint32 (x : ℚ) : ℕ :=
  (truncToInt x % 2 ^ 32).toNat

/-- Left shift of a `uint32`: bits shifted past bit 31 are lost. -/
def shl32 (x k : ℕ) : ℕ :=
  (x <<< k) % 2 ^ 32

/-- Method `c.PackInt()`: each channel times 255 converted to `uint32`, combined
as `aI<<24 | bI<<16 | gI<<8 | rI`. -/
def Color.PackInt (c : Color) : ℕ :=
  let rI := toUint32 (c.R * 255)
  let gI := toUint32 (c.G * 255)
  let bI := toUint32 (c.B * 255)
  let aI := toUint32 (c.A * 255)
  shl32 aI 24 ||| shl32 bI 16 ||| shl32 gI 8 ||| rI

/-- Byte `k` (0 = least significant) of a 32-bit word. -/
def byteOf (w k : ℕ) : ℕ :=
  (w >>> (8 * k)) % 256

/-- The colours whose four channels are `float32` values. -/
def Color.AllFloat32 (c : Color) : Prop :=
  IsFloat32 c.R ∧ IsFloat32 c.G ∧ IsFloat32 c.B ∧ IsFloat32 c.A

instance (c : Color) : Decidable c.AllFloat32 := by
  unfold Color.AllFloat32; infer_instance

/-- The colours whose four channels all lie in `[0, 1]`. -/
def InGamut (c : Color) : Prop :=
  (0 ≤ c.R ∧ c.R ≤ 1) ∧ (0 ≤ c.G ∧ c.G ≤ 1) ∧ (0 ≤ c.B ∧ c.B ≤ 1) ∧ (0 ≤ c.A ∧ c.A ≤ 1)

instance (c : Color) : Decidable (InGamut c) := by
  unfold InGamut; infer_instance

/-- The byte the specification's data model asks of a packed channel: the
channel is clamped to `[0, 1]` first and then quantized to eight bits. -/
def quantizeClamped (x : ℚ) : ℕ :=
  ⌊bmath.ClampF32 x 0 1 * 255⌋₊

end color

/-! ## Properties of the rounding -/

namespace ieee754

theorem roundHalfEven_bounds (y : ℚ) : ⌊y⌋ ≤ roundHalfEven y ∧ roundHalfEven y ≤ ⌊y⌋ + 1 := by
  unfold roundHalfEven
  split_ifs <;> constructor <;> omega

theorem roundHalfEven_mono {y₁ y₂ : ℚ} (h : y₁ ≤ y₂) : roundHalfEven y₁ ≤ roundHalfEven y₂ := by
  have hf : ⌊y₁⌋ ≤ ⌊y₂⌋ := Int.floor_mono h
  rcases hf.lt_or_eq with hlt | heq
  · have h1 := (roundHalfEven_bounds y₁).2
    have h2 := (roundHalfEven_bounds y₂).1
    omega
  · unfold roundHalfEven
    rw [heq]
    split_ifs <;> first | omega | (exfalso; linarith)

theorem roundHalfEven_of_near (y : ℚ) (m : ℤ) (h : |y - m| < 1 / 2) : roundHalfEven y = m := by
  rw [abs_lt] at h
  obtain ⟨h1, h2⟩ := h
  rcases le_or_lt (m : ℚ) y with hm | hm
  · have hf : ⌊y⌋ = m := by
      rw [Int.floor_eq_iff]; constructor <;> linarith
    unfold roundHalfEven
    rw [hf, if_pos (by linarith)]
  · have hf : ⌊y⌋ = m - 1 := by
      rw [Int.floor_eq_iff]; push_cast; constructor <;> linarith
    unfold roundHalfEven
    rw [hf]
    push_cast
    rw [if_neg (by linarith), if_pos (by linarith)]
    ring

theorem roundHalfEven_intCast (n : ℤ) : roundHalfEven (n : ℚ) = n :=
  roundHalfEven_of_near _ n (by simp)

theorem pow_two_pos (k : ℤ) : (0 : ℚ) < 2 ^ k := zpow_pos (by norm_num) k

theorem roundMag_zero (frac : ℕ) (emin : ℤ) : roundMag frac emin 0 = 0 := by
  unfold roundMag
  rw [zero_div]
  have := roundHalfEven_intCast 0
  simp only [Int.cast_zero] at this
  rw [this]; simp

theorem roundMag_nonneg (frac : ℕ) (emin : ℤ) (x : ℚ) (hx : 0 ≤ x) : 0 ≤ roundMag frac emin x := by
  unfold roundMag
  have h0 : (0 : ℚ) ≤ x / 2 ^ ulpExp frac emin x := div_nonneg hx (pow_two_pos _).le
  have h1 := roundHalfEven_mono h0
  have h2 := roundHalfEven_intCast 0
  simp only [Int.cast_zero] at h2
  rw [h2] at h1
  exact mul_nonneg (by exact_mod_cast h1) (pow_two_pos _).le

theorem grid_pow (q e : ℤ) (h : q ≤ e) :
    ((roundHalfEven ((2 : ℚ) ^ e / 2 ^ q) : ℤ) : ℚ) * 2 ^ q = 2 ^ e := by
  have e1 : (2 : ℚ) ^ e / 2 ^ q = (((2 : ℤ) ^ (e - q).toNat : ℤ) : ℚ) := by
    rw [← zpow_sub₀ (by norm_num : (2 : ℚ) ≠ 0)]
    push_cast
    rw [← zpow_natCast, Int.toNat_of_nonneg (by omega)]
  rw [e1, roundHalfEven_intCast, ← e1, div_mul_cancel₀ _ (pow_two_pos q).ne']

theorem grid_int (q q' m : ℤ) (h : q' ≤ q) :
    ((roundHalfEven ((m : ℚ) * 2 ^ q / 2 ^ q') : ℤ) : ℚ) * 2 ^ q' = m * 2 ^ q := by
  have e1 : (m : ℚ) * 2 ^ q / 2 ^ q' = ((m * (2 : ℤ) ^ (q - q').toNat : ℤ) : ℚ) := by
    rw [mul_div_assoc, ← zpow_sub₀ (by norm_num : (2 : ℚ) ≠ 0)]
    push_cast
    rw [← zpow_natCast, Int.toNat_of_nonneg (by omega)]
  rw [e1, roundHalfEven_intCast, ← e1, div_mul_cancel₀ _ (pow_two_pos q').ne']

theorem roundMag_mono (frac : ℕ) (emin : ℤ) {x y : ℚ} (hx : 0 ≤ x) (h : x ≤ y) :
    roundMag frac emin x ≤ roundMag frac emin y := by
  rcases hx.eq_or_lt with h0 | hpos
  · rw [← h0, roundMag_zero]; exact roundMag_nonneg _ _ _ (hx.trans h)
  have hy : 0 < y := lt_of_lt_of_le hpos h
  have he : Int.log 2 x ≤ Int.log 2 y := Int.log_mono_right hpos h
  have hq : ulpExp frac emin x ≤ ulpExp frac emin y := by
    unfold ulpExp; exact max_le_max (by omega) le_rfl
  rcases hq.eq_or_lt with heq | hlt
  · unfold roundMag
    rw [heq]
    have h1 : x / 2 ^ ulpExp frac emin y ≤ y / 2 ^ ulpExp frac emin y :=
      div_le_div_of_nonneg_right h (pow_two_pos _).le
    have h2 := roundHalfEven_mono h1
    exact mul_le_mul_of_nonneg_right (by exact_mod_cast h2) (pow_two_pos _).le
  · have hqy : ulpExp frac emin y = Int.log 2 y - frac := by
      unfold ulpExp at hlt ⊢
      have : emin ≤ max (Int.log 2 x - (frac : ℤ)) emin := le_max_right _ _
      rcases max_cases (Int.log 2 y - (frac : ℤ)) emin with ⟨h1, _⟩ | ⟨h1, _⟩
      · exact h1
      · omega
    have helt : Int.log 2 x < Int.log 2 y := by
      by_contra hcon
      have : Int.log 2 x = Int.log 2 y := le_antisymm he (not_lt.mp hcon)
      unfold ulpExp at hlt
      rw [this] at hlt
      exact lt_irrefl _ hlt
    have hxT : x < 2 ^ Int.log 2 y := by
      have h1 : x < ((2 : ℕ) : ℚ) ^ (Int.log 2 x + 1) := Int.lt_zpow_succ_log_self (by norm_num) x
      have h2 : ((2 : ℕ) : ℚ) ^ (Int.log 2 x + 1) ≤ ((2 : ℕ) : ℚ) ^ Int.log 2 y :=
        zpow_le_zpow_right₀ (by norm_num) (by omega)
      have := lt_of_lt_of_le h1 h2
      simpa using this
    have hTy : (2 : ℚ) ^ Int.log 2 y ≤ y := by
      have := @Int.zpow_log_le_self ℚ _ _ 2 y (by norm_num) hy
      simpa using this
    have hqxe : ulpExp frac emin x ≤ Int.log 2 y := by
      have : ulpExp frac emin y ≤ Int.log 2 y := by rw [hqy]; omega
      omega
    have hqye : ulpExp frac emin y ≤ Int.log 2 y := by rw [hqy]; omega
    calc roundMag frac emin x
        ≤ (roundHalfEven ((2 : ℚ) ^ Int.log 2 y / 2 ^ ulpExp frac emin x) : ℤ)
            * 2 ^ ulpExp frac emin x := by
          unfold roundMag
          have h1 : x / 2 ^ ulpExp frac emin x
              ≤ (2 : ℚ) ^ Int.log 2 y / 2 ^ ulpExp frac emin x :=
            div_le_div_of_nonneg_right hxT.le (pow_two_pos _).le
          have h2 := roundHalfEven_mono h1
          exact mul_le_mul_of_nonneg_right (by exact_mod_cast h2) (pow_two_pos _).le
      _ = 2 ^ Int.log 2 y := grid_pow _ _ hqxe
      _ = (roundHalfEven ((2 : ℚ) ^ Int.log 2 y / 2 ^ ulpExp frac emin y) : ℤ)
            * 2 ^ ulpExp frac emin y := (grid_pow _ _ hqye).symm
      _ ≤ roundMag frac emin y := by
          unfold roundMag
          have h1 : (2 : ℚ) ^ Int.log 2 y / 2 ^ ulpExp frac emin y
              ≤ y / 2 ^ ulpExp frac emin y :=
            div_le_div_of_nonneg_right hTy (pow_two_pos _).le
          have h2 := roundHalfEven_mono h1
          exact mul_le_mul_of_nonneg_right (by exact_mod_cast h2) (pow_two_pos _).le

theorem roundFloat_zero (frac : ℕ) (emin : ℤ) : roundFloat frac emin 0 = 0 := by
  unfold roundFloat
  rw [if_neg (lt_irrefl 0), roundMag_zero]

theorem roundFloat_nonneg (frac : ℕ) (emin : ℤ) (x : ℚ) (hx : 0 ≤ x) :
    0 ≤ roundFloat frac emin x := by
  unfold roundFloat
  rw [if_neg (not_lt.mpr hx)]
  exact roundMag_nonneg _ _ _ hx

theorem roundFloat_nonpos (frac : ℕ) (emin : ℤ) (x : ℚ) (hx : x ≤ 0) :
    roundFloat frac emin x ≤ 0 := by
  rcases hx.eq_or_lt with h0 | hneg
  · rw [h0, roundFloat_zero]
  · unfold roundFloat
    rw [if_pos hneg]
    have := roundMag_nonneg frac emin (-x) (by linarith)
    linarith

theorem roundFloat_mono (frac : ℕ) (emin : ℤ) {x y : ℚ} (h : x ≤ y) :
    roundFloat frac emin x ≤ roundFloat frac emin y := by
  rcases lt_or_le x 0 with hx | hx
  · rcases lt_or_le y 0 with hy | hy
    · unfold roundFloat
      rw [if_pos hx, if_pos hy]
      have := roundMag_mono frac emin (by linarith : (0 : ℚ) ≤ -y) (by linarith : -y ≤ -x)
      linarith
    · exact (roundFloat_nonpos _ _ _ hx.le).trans (roundFloat_nonneg _ _ _ hy)
  · unfold roundFloat
    rw [if_neg (not_lt.mpr hx), if_neg (not_lt.mpr (hx.trans h))]
    exact roundMag_mono frac emin hx h

theorem roundFloat_neg (frac : ℕ) (emin : ℤ) (x : ℚ) :
    roundFloat frac emin (-x) = -roundFloat frac emin x := by
  rcases lt_trichotomy x 0 with h | h | h
  · unfold roundFloat
    rw [if_pos h, if_neg (by linarith), neg_neg]
  · rw [h, neg_zero, roundFloat_zero, neg_zero]
  · unfold roundFloat
    rw [if_pos (by linarith), if_neg (by linarith), neg_neg]

theorem log_two_eq (x : ℚ) (e : ℤ) (h1 : (2 : ℚ) ^ e ≤ x) (h2 : x < 2 ^ (e + 1)) :
    Int.log 2 x = e := by
  have hx : 0 < x := lt_of_lt_of_le (pow_two_pos e) h1
  have a : e ≤ Int.log 2 x := by
    rw [← Int.zpow_le_iff_le_log (by norm_num) hx]
    simpa using h1
  have b : Int.log 2 x < e + 1 := by
    rw [← Int.lt_zpow_iff_log_lt (by norm_num) hx]
    simpa using h2
  omega

theorem roundFloat_eq_of (frac : ℕ) (emin : ℤ) (x : ℚ) (e q m : ℤ) (h1 : (2 : ℚ) ^ e ≤ x)
    (h2 : x < 2 ^ (e + 1)) (hq : q = max (e - frac) emin) (hm : |x / 2 ^ q - m| < 1 / 2) :
    roundFloat frac emin x = m * 2 ^ q := by
  have hx : 0 < x := lt_of_lt_of_le (pow_two_pos e) h1
  unfold roundFloat
  rw [if_neg (by linarith)]
  unfold roundMag ulpExp
  rw [log_two_eq x e h1 h2, ← hq, roundHalfEven_of_near _ m hm]



theorem roundMag_idem (frac : ℕ) (emin : ℤ) (x : ℚ) (hx : 0 ≤ x) :
    roundMag frac emin (roundMag frac emin x) = roundMag frac emin x := by
  have hr0 := roundMag_nonneg frac emin x hx
  rcases hr0.eq_or_lt with h0 | hpos
  · rw [← h0, roundMag_zero]
  have hxpos : 0 < x := by
    rcases hx.eq_or_lt with h | h
    · rw [← h, roundMag_zero] at hpos; exact absurd hpos (lt_irrefl _)
    · exact h
  -- the rounded value is at most the next power of two
  have hx2 : x < (2 : ℚ) ^ (Int.log 2 x + 1) := by
    have := Int.lt_zpow_succ_log_self (by norm_num : 1 < 2) x
    simpa using this
  have hqle : ulpExp frac emin x ≤ Int.log 2 x + 1 := by
    by_contra hcon
    have hlt : Int.log 2 x + 1 < ulpExp frac emin x := not_le.mp hcon
    have h1 : x / 2 ^ ulpExp frac emin x < 1 / 2 := by
      rw [div_lt_iff₀ (pow_two_pos _)]
      have h2 : (2 : ℚ) ^ (Int.log 2 x + 1) ≤ 1 / 2 * 2 ^ ulpExp frac emin x := by
        have h3 : (2 : ℚ) ^ (Int.log 2 x + 1 + 1) ≤ 2 ^ ulpExp frac emin x :=
          zpow_le_zpow_right₀ (by norm_num) (by omega)
        rw [zpow_add_one₀ (by norm_num : (2 : ℚ) ≠ 0)] at h3
        linarith
      linarith
    have h4 : roundHalfEven (x / 2 ^ ulpExp frac emin x) = 0 :=
      roundHalfEven_of_near _ 0 (by
        rw [Int.cast_zero, sub_zero, abs_of_nonneg (div_nonneg hx (pow_two_pos _).le)]
        exact h1)
    unfold roundMag at hpos
    rw [h4] at hpos
    simp at hpos
  have hle : roundMag frac emin x ≤ 2 ^ (Int.log 2 x + 1) := by
    have h1 : x / 2 ^ ulpExp frac emin x
        ≤ (2 : ℚ) ^ (Int.log 2 x + 1) / 2 ^ ulpExp frac emin x :=
      div_le_div_of_nonneg_right hx2.le (pow_two_pos _).le
    have h2 := roundHalfEven_mono h1
    have h3 := grid_pow (ulpExp frac emin x) (Int.log 2 x + 1) hqle
    rw [← h3]
    unfold roundMag
    exact mul_le_mul_of_nonneg_right (by exact_mod_cast h2) (pow_two_pos _).le
  rcases hle.eq_or_lt with heq | hlt
  · -- rounded up to the power of two
    rw [heq]
    have hlog : Int.log 2 ((2 : ℚ) ^ (Int.log 2 x + 1)) = Int.log 2 x + 1 := by
      have := @Int.log_zpow ℚ _ _ 2 (by norm_num) (Int.log 2 x + 1)
      simpa using this
    have hq' : ulpExp frac emin ((2 : ℚ) ^ (Int.log 2 x + 1)) ≤ Int.log 2 x + 1 := by
      unfold ulpExp
      rw [hlog]
      have : emin ≤ ulpExp frac emin x := le_max_right _ _
      exact max_le (by omega) (by omega)
    unfold roundMag
    exact grid_pow _ _ hq'
  · have hlog : Int.log 2 (roundMag frac emin x) ≤ Int.log 2 x := by
      have : Int.log 2 (roundMag frac emin x) < Int.log 2 x + 1 := by
        rw [← Int.lt_zpow_iff_log_lt (by norm_num) hpos]
        simpa using hlt
      omega
    have hq' : ulpExp frac emin (roundMag frac emin x) ≤ ulpExp frac emin x := by
      unfold ulpExp; exact max_le_max (by omega) le_rfl
    have key := grid_int (ulpExp frac emin x) (ulpExp frac emin (roundMag frac emin x))
      (roundHalfEven (x / 2 ^ ulpExp frac emin x)) hq'
    have hdef : roundMag frac emin x
        = (roundHalfEven (x / 2 ^ ulpExp frac emin x) : ℤ) * 2 ^ ulpExp frac emin x := rfl
    rw [← hdef] at key
    exact key

theorem roundFloat_idem (frac : ℕ) (emin : ℤ) (x : ℚ) :
    roundFloat frac emin (roundFloat frac emin x) = roundFloat frac emin x := by
  rcases lt_or_le x 0 with hx | hx
  · have h1 : roundFloat frac emin x = -roundMag frac emin (-x) := by
      unfold roundFloat; rw [if_pos hx]
    have h2 : 0 ≤ roundMag frac emin (-x) := roundMag_nonneg _ _ _ (by linarith)
    have h3 : roundFloat frac emin (roundMag frac emin (-x)) = roundMag frac emin (-x) := by
      unfold roundFloat
      rw [if_neg (not_lt.mpr h2), roundMag_idem _ _ _ (by linarith)]
    rw [h1, roundFloat_neg, h3]
  · have h1 : roundFloat frac emin x = roundMag frac emin x := by
      unfold roundFloat; rw [if_neg (not_lt.mpr hx)]
    have h2 : 0 ≤ roundMag frac emin x := roundMag_nonneg _ _ _ hx
    rw [h1]
    unfold roundFloat
    rw [if_neg (not_lt.mpr h2), roundMag_idem _ _ _ hx]

end ieee754

theorem float32_zero : float32 0 = 0 := ieee754.roundFloat_zero _ _

theorem float32_mono {x y : ℚ} (h : x ≤ y) : float32 x ≤ float32 y :=
  ieee754.roundFloat_mono _ _ h

theorem float32_idem (x : ℚ) : float32 (float32 x) = float32 x :=
  ieee754.roundFloat_idem _ _ x

theorem float32_neg (x : ℚ) : float32 (-x) = -float32 x :=
  ieee754.roundFloat_neg _ _ x

theorem float32_eq_of (x : ℚ) (e q m : ℤ) (h1 : (2 : ℚ) ^ e ≤ x) (h2 : x < 2 ^ (e + 1))
    (hq : q = max (e - 23) (-149)) (hm : |x / 2 ^ q - m| < 1 / 2) :
    float32 x = m * 2 ^ q :=
  ieee754.roundFloat_eq_of 23 (-149) x e q m h1 h2 (by simpa using hq) hm

theorem float64_zero : float64 0 = 0 := ieee754.roundFloat_zero _ _

theorem float64_mono {x y : ℚ} (h : x ≤ y) : float64 x ≤ float64 y :=
  ieee754.roundFloat_mono _ _ h

theorem float64_idem (x : ℚ) : float64 (float64 x) = float64 x :=
  ieee754.roundFloat_idem _ _ x

theorem float64_eq_of (x : ℚ) (e q m : ℤ) (h1 : (2 : ℚ) ^ e ≤ x) (h2 : x < 2 ^ (e + 1))
    (hq : q = max (e - 52) (-1074)) (hm : |x / 2 ^ q - m| < 1 / 2) :
    float64 x = m * 2 ^ q :=
  ieee754.roundFloat_eq_of 52 (-1074) x e q m h1 h2 (by simpa using hq) hm

theorem float32_one : float32 1 = 1 := by
  rw [float32_eq_of 1 0 (-23) (2 ^ 23) (by norm_num) (by norm_num) (by norm_num)
    (by norm_num [abs_lt])]
  norm_num

theorem float32_half : float32 (1 / 2) = 1 / 2 := by
  rw [float32_eq_of (1 / 2) (-1) (-24) (2 ^ 23) (by norm_num) (by norm_num) (by norm_num)
    (by norm_num [abs_lt])]
  norm_num

namespace color

/-! ## Helper lemmas -/

theorem ClampF32_of_le_lo (v lo hi : ℚ) (hlh : lo ≤ hi) (h : v ≤ lo) :
    bmath.ClampF32 v lo hi = lo := by
  unfold bmath.ClampF32
  split_ifs with h1 h2
  · rfl
  · exact absurd (lt_of_lt_of_le h2 (le_trans h hlh)) (lt_irrefl _)
  · exact le_antisymm h (not_lt.mp h1)

theorem ClampF32_of_hi_le (v lo hi : ℚ) (hlh : lo ≤ hi) (h : hi ≤ v) :
    bmath.ClampF32 v lo hi = hi := by
  unfold bmath.ClampF32
  split_ifs with h1 h2
  · exact absurd (lt_of_lt_of_le h1 (le_trans hlh h)) (lt_irrefl _)
  · rfl
  · exact le_antisymm (not_lt.mp h2) h

theorem ClampF32_of_mem (v lo hi : ℚ) (h1 : lo ≤ v) (h2 : v ≤ hi) :
    bmath.ClampF32 v lo hi = v := by
  unfold bmath.ClampF32
  rw [if_neg (not_lt.mpr h1), if_neg (not_lt.mpr h2)]

theorem or_eq_add_of_mod (x y n : ℕ) (hx : x % 2 ^ n = 0) (hy : y < 2 ^ n) :
    x ||| y = x + y := by
  obtain ⟨a, rfl⟩ : 2 ^ n ∣ x := Nat.dvd_of_mod_eq_zero hx
  exact (Nat.mul_add_lt_is_or hy a).symm

theorem shift_or_eq_sum (a b g r : ℕ) (hb : b < 256) (hg : g < 256) (hr : r < 256) :
    a <<< 24 ||| b <<< 16 ||| g <<< 8 ||| r
      = a * 2 ^ 24 + b * 2 ^ 16 + g * 2 ^ 8 + r := by
  simp only [Nat.shiftLeft_eq]
  rw [or_eq_add_of_mod (a * 2 ^ 24) (b * 2 ^ 16) 24 (by omega) (by omega)]
  rw [or_eq_add_of_mod (a * 2 ^ 24 + b * 2 ^ 16) (g * 2 ^ 8) 16 (by omega) (by omega)]
  rw [or_eq_add_of_mod (a * 2 ^ 24 + b * 2 ^ 16 + g * 2 ^ 8) r 8 (by omega) (by omega)]

theorem shl32_of_lt (a k : ℕ) (ha : a < 256) (hk : k ≤ 24) : shl32 a k = a <<< k := by
  unfold shl32
  apply Nat.mod_eq_of_lt
  rw [Nat.shiftLeft_eq]
  calc a * 2 ^ k ≤ a * 2 ^ 24 := Nat.mul_le_mul_left a (Nat.pow_le_pow_right (by norm_num) hk)
    _ < 2 ^ 32 := by omega

theorem byteOf_sum (a b g r : ℕ) (ha : a < 256) (hb : b < 256) (hg : g < 256)
    (hr : r < 256) :
    byteOf (a * 2 ^ 24 + b * 2 ^ 16 + g * 2 ^ 8 + r) 3 = a ∧
    byteOf (a * 2 ^ 24 + b * 2 ^ 16 + g * 2 ^ 8 + r) 2 = b ∧
    byteOf (a * 2 ^ 24 + b * 2 ^ 16 + g * 2 ^ 8 + r) 1 = g ∧
    byteOf (a * 2 ^ 24 + b * 2 ^ 16 + g * 2 ^ 8 + r) 0 = r := by
  simp only [byteOf, Nat.shiftRight_eq_div_pow]
  refine ⟨?_, ?_, ?_, ?_⟩ <;> omega

theorem truncToInt_of_nonneg (x : ℚ) (hx : 0 ≤ x) : truncToInt x = ⌊x⌋ := by
  unfold truncToInt
  rw [Rat.floor_def, Int.tdiv_eq_ediv (Rat.num_nonneg.mpr hx) (Int.natCast_nonneg _)]

theorem toUint32_of_range (x : ℚ) (h0 : 0 ≤ x) (h1 : x < 2 ^ 32) :
    toUint32 x = ⌊x⌋₊ := by
  unfold toUint32
  rw [truncToInt_of_nonneg x h0, ← Int.floor_toNat]
  have hf0 : 0 ≤ ⌊x⌋ := Int.floor_nonneg.mpr h0
  have hf1 : ⌊x⌋ < 2 ^ 32 := by
    rw [Int.floor_lt]; exact_mod_cast h1
  rw [Int.emod_eq_of_lt hf0 hf1]

theorem toUint32_natCast (n : ℕ) (hn : n < 2 ^ 32) : toUint32 (n : ℚ) = n := by
  rw [toUint32_of_range (n : ℚ) (Nat.cast_nonneg n) (by exact_mod_cast hn), Nat.floor_natCast]

theorem quantize_unit (x : ℚ) (h0 : 0 ≤ x) (h1 : x ≤ 1) :
    toUint32 (x * 255) = ⌊x * 255⌋₊ ∧ ⌊x * 255⌋₊ ≤ 255 := by
  have hq0 : 0 ≤ x * 255 := by positivity
  have hq1 : x * 255 ≤ 255 := by linarith
  refine ⟨toUint32_of_range _ hq0 (by linarith), ?_⟩
  have h := Nat.floor_le_floor hq1
  have e : ⌊(255 : ℚ)⌋₊ = 255 := by simp
  rwa [e] at h

theorem PackInt_of_inGamut (c : Color) (h : InGamut c) :
    c.PackInt = ⌊c.A * 255⌋₊ * 2 ^ 24 + ⌊c.B * 255⌋₊ * 2 ^ 16 + ⌊c.G * 255⌋₊ * 2 ^ 8
      + ⌊c.R * 255⌋₊ := by
  obtain ⟨⟨r0, r1⟩, ⟨g0, g1⟩, ⟨b0, b1⟩, ⟨a0, a1⟩⟩ := h
  obtain ⟨er, lr⟩ := quantize_unit c.R r0 r1
  obtain ⟨eg, lg⟩ := quantize_unit c.G g0 g1
  obtain ⟨eb, lb⟩ := quantize_unit c.B b0 b1
  obtain ⟨ea, la⟩ := quantize_unit c.A a0 a1
  simp only [Color.PackInt, er, eg, eb, ea]
  rw [shl32_of_lt _ 24 (by omega) le_rfl, shl32_of_lt _ 16 (by omega) (by norm_num),
    shl32_of_lt _ 8 (by omega) (by norm_num)]
  exact shift_or_eq_sum _ _ _ _ (by omega) (by omega) (by omega)

theorem byteOf_PackInt (c : Color) (h : InGamut c) :
    byteOf c.PackInt 3 = ⌊c.A * 255⌋₊ ∧ byteOf c.PackInt 2 = ⌊c.B * 255⌋₊ ∧
    byteOf c.PackInt 1 = ⌊c.G * 255⌋₊ ∧ byteOf c.PackInt 0 = ⌊c.R * 255⌋₊ := by
  rw [PackInt_of_inGamut c h]
  obtain ⟨⟨r0, r1⟩, ⟨g0, g1⟩, ⟨b0, b1⟩, ⟨a0, a1⟩⟩ := h
  exact byteOf_sum _ _ _ _ (by have := (quantize_unit c.A a0 a1).2; omega)
    (by have := (quantize_unit c.B b0 b1).2; omega)
    (by have := (quantize_unit c.G g0 g1).2; omega)
    (by have := (quantize_unit c.R r0 r1).2; omega)

theorem byteOf_or (x y k : ℕ) : byteOf (x ||| y) k = byteOf x k ||| byteOf y k := by
  unfold byteOf
  apply Nat.eq_of_testBit_eq
  intro i
  have e : (256 : ℕ) = 2 ^ 8 := by norm_num
  simp only [e, Nat.testBit_mod_two_pow, Nat.testBit_or, Nat.testBit_shiftRight]
  cases decide (i < 8) <;> simp

theorem byteOf_pack (a b g r : ℕ) :
    byteOf (shl32 a 24 ||| shl32 b 16 ||| shl32 g 8 ||| r) 0 = r % 256 ∧
    (r < 256 → byteOf (shl32 a 24 ||| shl32 b 16 ||| shl32 g 8 ||| r) 1 = g % 256) ∧
    (r < 256 → g < 256 →
      byteOf (shl32 a 24 ||| shl32 b 16 ||| shl32 g 8 ||| r) 2 = b % 256) ∧
    (r < 256 → g < 256 → b < 256 →
      byteOf (shl32 a 24 ||| shl32 b 16 ||| shl32 g 8 ||| r) 3 = a % 256) := by
  have ha : ∀ k, k < 3 → byteOf (shl32 a 24) k = 0 := by
    intro k hk
    simp only [byteOf, shl32, Nat.shiftLeft_eq, Nat.shiftRight_eq_div_pow]
    interval_cases k <;> omega
  have ha3 : byteOf (shl32 a 24) 3 = a % 256 := by
    simp only [byteOf, shl32, Nat.shiftLeft_eq, Nat.shiftRight_eq_div_pow]
    omega
  have hb : ∀ k, k < 2 → byteOf (shl32 b 16) k = 0 := by
    intro k hk
    simp only [byteOf, shl32, Nat.shiftLeft_eq, Nat.shiftRight_eq_div_pow]
    interval_cases k <;> omega
  have hb2 : byteOf (shl32 b 16) 2 = b % 256 := by
    simp only [byteOf, shl32, Nat.shiftLeft_eq, Nat.shiftRight_eq_div_pow]
    omega
  have hb3 : b < 256 → byteOf (shl32 b 16) 3 = 0 := by
    intro h
    simp only [byteOf, shl32, Nat.shiftLeft_eq, Nat.shiftRight_eq_div_pow]
    omega
  have hg0 : byteOf (shl32 g 8) 0 = 0 := by
    simp only [byteOf, shl32, Nat.shiftLeft_eq, Nat.shiftRight_eq_div_pow]
    omega
  have hg1 : byteOf (shl32 g 8) 1 = g % 256 := by
    simp only [byteOf, shl32, Nat.shiftLeft_eq, Nat.shiftRight_eq_div_pow]
    omega
  have hg23 : g < 256 → byteOf (shl32 g 8) 2 = 0 ∧ byteOf (shl32 g 8) 3 = 0 := by
    intro h
    simp only [byteOf, shl32, Nat.shiftLeft_eq, Nat.shiftRight_eq_div_pow]
    constructor <;> omega
  have hr0 : byteOf r 0 = r % 256 := by
    simp only [byteOf, Nat.shiftRight_eq_div_pow]
    omega
  have hr : r < 256 → byteOf r 1 = 0 ∧ byteOf r 2 = 0 ∧ byteOf r 3 = 0 := by
    intro h
    simp only [byteOf, Nat.shiftRight_eq_div_pow]
    refine ⟨?_, ?_, ?_⟩ <;> omega
  refine ⟨?_, ?_, ?_, ?_⟩
  · rw [byteOf_or, byteOf_or, byteOf_or, ha 0 (by norm_num), hb 0 (by norm_num), hg0, hr0]
    simp
  · intro h
    rw [byteOf_or, byteOf_or, byteOf_or, ha 1 (by norm_num), hb 1 (by norm_num), hg1,
      (hr h).1]
    simp
  · intro h hgl
    rw [byteOf_or, byteOf_or, byteOf_or, ha 2 (by norm_num), hb2, (hg23 hgl).1, (hr h).2.1]
    simp
  · intro h hgl hbl
    rw [byteOf_or, byteOf_or, byteOf_or, ha3, hb3 hbl, (hg23 hgl).2, (hr h).2.2]
    simp

theorem quantize_lt (x : ℚ) (h : 0 ≤ x ∧ x ≤ 1) :
    toUint32 (x * 255) = ⌊x * 255⌋₊ ∧ toUint32 (x * 255) < 256 := by
  obtain ⟨e, l⟩ := quantize_unit x h.1 h.2
  exact ⟨e, by omega⟩

theorem floor_eq_round_iff (x : ℚ) : ⌊x⌋ = round x ↔ Int.fract x < 1 / 2 := by
  rw [round_eq, eq_comm, Int.floor_eq_iff]
  constructor
  · rintro ⟨_, h2⟩
    have h3 : (⌊x⌋ : ℚ) + Int.fract x = x := Int.floor_add_fract x
    linarith
  · intro h
    have h3 : (⌊x⌋ : ℚ) + Int.fract x = x := Int.floor_add_fract x
    have h4 : 0 ≤ Int.fract x := Int.fract_nonneg x
    constructor <;> linarith

theorem trunc_bounds (x : ℚ) (h0 : 0 ≤ x) :
    ((⌊x⌋₊ : ℚ) ≤ x ∧ x < (⌊x⌋₊ : ℚ) + 1) ∧
    (((⌊x⌋₊ : ℕ) : ℤ) = round x ↔ Int.fract x < 1 / 2) := by
  refine ⟨⟨Nat.floor_le h0, Nat.lt_floor_add_one x⟩, ?_⟩
  rw [← floor_eq_round_iff, Int.natCast_floor_eq_floor h0]

theorem Max_one_of_nonneg (amount : ℚ) (h : 0 ≤ amount) :
    math32.Max 1 (1 + amount) = 1 + amount := by
  unfold math32.Max
  split_ifs with h1
  · rfl
  · linarith

theorem Max_one_of_nonpos (amount : ℚ) (h : amount ≤ 0) :
    math32.Max 1 (1 + amount) = 1 := by
  unfold math32.Max
  rw [if_neg (by linarith)]

theorem Min_eq_min (a b : ℚ) : math32.Min a b = min a b := by
  unfold math32.Min
  split_ifs with h
  · exact (min_eq_right h.le).symm
  · exact (min_eq_left (not_lt.mp h)).symm

theorem ClampF32_unit_eq (v : ℚ) : bmath.ClampF32 v 0 1 = max 0 (min 1 v) := by
  unfold bmath.ClampF32
  split_ifs with h1 h2
  · rw [min_eq_right (by linarith), max_eq_left h1.le]
  · rw [min_eq_left h2.le, max_eq_right (by norm_num)]
  · rw [min_eq_right (not_lt.mp h2), max_eq_right (not_lt.mp h1)]

theorem float64_100 : float64 100 = 100 := by
  rw [float64_eq_of 100 6 (-46) (100 * 2 ^ 46) (by norm_num) (by norm_num) (by norm_num)
    (by norm_num [abs_lt])]
  norm_num

theorem lighten_lightness_bounds (l amount : ℚ) (l0 : 0 ≤ l) (l1 : l ≤ 100) (a0 : 0 ≤ amount)
    (a1 : amount ≤ 1) :
    float64 (100 - float64 (100 - l))
      ≤ float64 (100 - float64 (float64 (100 - l) * float32 (1 - amount))) ∧
    float64 (100 - float64 (float64 (100 - l) * float32 (1 - amount))) ≤ 100 ∧
    0 ≤ float64 (100 - float64 (float64 (100 - l) * float32 (1 - amount))) := by
  have hA0 : 0 ≤ float64 (100 - l) := by
    have := float64_mono (by linarith : (0 : ℚ) ≤ 100 - l)
    rwa [float64_zero] at this
  have hA1 : float64 (100 - l) ≤ 100 := by
    have := float64_mono (by linarith : 100 - l ≤ (100 : ℚ))
    rwa [float64_100] at this
  have hu0 : 0 ≤ float32 (1 - amount) := by
    have := float32_mono (by linarith : (0 : ℚ) ≤ 1 - amount)
    rwa [float32_zero] at this
  have hu1 : float32 (1 - amount) ≤ 1 := by
    have := float32_mono (by linarith : 1 - amount ≤ (1 : ℚ))
    rwa [float32_one] at this
  have hP0 : 0 ≤ float64 (float64 (100 - l) * float32 (1 - amount)) := by
    have := float64_mono (mul_nonneg hA0 hu0)
    rwa [float64_zero] at this
  have hP1 : float64 (float64 (100 - l) * float32 (1 - amount)) ≤ float64 (100 - l) := by
    have := float64_mono (mul_le_of_le_one_right hA0 hu1)
    rwa [float64_idem] at this
  refine ⟨float64_mono (by linarith), ?_, ?_⟩
  · have := float64_mono
      (by linarith : 100 - float64 (float64 (100 - l) * float32 (1 - amount)) ≤ (100 : ℚ))
    rwa [float64_100] at this
  · have := float64_mono
      (by linarith : (0 : ℚ) ≤ 100 - float64 (float64 (100 - l) * float32 (1 - amount)))
    rwa [float64_zero] at this

theorem Max_one_ge (amount : ℚ) : 1 ≤ math32.Max 1 (1 + amount) := by
  unfold math32.Max
  split_ifs with h
  · exact h.le
  · exact le_rfl

theorem ClampF32_unit_mem (t : ℚ) : 0 ≤ bmath.ClampF32 t 0 1 ∧ bmath.ClampF32 t 0 1 ≤ 1 := by
  rw [ClampF32_unit_eq]
  exact ⟨le_max_left _ _, max_le (by norm_num) (min_le_left _ _)⟩

theorem mix_channel_mono (a d : ℚ) {s₁ s₂ : ℚ} (h : d * s₁ ≤ d * s₂) :
    float32 (a + float32 (d * s₁)) ≤ float32 (a + float32 (d * s₂)) :=
  float32_mono (by linarith [float32_mono h])

theorem mix_channel_between (a b t : ℚ) (h0 : 0 ≤ t) (h1 : t ≤ 1) :
    min (float32 (a + float32 (float32 (b - a) * 0)))
        (float32 (a + float32 (float32 (b - a) * 1)))
      ≤ float32 (a + float32 (float32 (b - a) * t)) ∧
    float32 (a + float32 (float32 (b - a) * t))
      ≤ max (float32 (a + float32 (float32 (b - a) * 0)))
          (float32 (a + float32 (float32 (b - a) * 1))) := by
  rcases le_total 0 (float32 (b - a)) with hd | hd
  · have l := mix_channel_mono a (float32 (b - a))
      (mul_le_mul_of_nonneg_left h0 hd)
    have u := mix_channel_mono a (float32 (b - a))
      (mul_le_mul_of_nonneg_left h1 hd)
    exact ⟨(min_le_left _ _).trans l, u.trans (le_max_right _ _)⟩
  · have l := mix_channel_mono a (float32 (b - a))
      (mul_le_mul_of_nonpos_left h1 hd)
    have u := mix_channel_mono a (float32 (b - a))
      (mul_le_mul_of_nonpos_left h0 hd)
    exact ⟨(min_le_right _ _).trans l, u.trans (le_max_left _ _)⟩

theorem lighten2_channel (x a : ℚ) (h0 : 0 ≤ x) (h1 : x ≤ 1) (ha : 0 ≤ a) :
    x ≤ math32.Min 1 (x * (1 + 1 / 2 * (a * (1 / 2))) + a * (1 / 2)) ∧
    math32.Min 1 (x * (1 + 1 / 2 * (a * (1 / 2))) + a * (1 / 2)) ≤ 1 := by
  rw [Min_eq_min]
  refine ⟨le_min h1 ?_, min_le_left _ _⟩
  nlinarith [mul_nonneg h0 ha]

theorem darken_channel (x s : ℚ) (h0 : 0 ≤ x) (hs : 1 ≤ s) : 0 ≤ x / s ∧ x / s ≤ x := by
  have hpos : 0 < s := by linarith
  refine ⟨div_nonneg h0 hpos.le, ?_⟩
  rw [div_le_iff₀ hpos]
  nlinarith

/-! ## Claims -/

/-- C1, counterexample: at `t ≥ 1` the result of `Mix` need not be `other`. With
the `float32` values of 0.7 and 0.1 in the red channel and `t = 5`, the
difference `0.1 - 0.7` rounds to `-10066329/2^24`, and adding it back to 0.7
gives `838861/2^23`, which is not the `float32` of 0.1. -/
theorem Mix_other_counterexample :
    float32 (7 / 10) = 11744051 / 2 ^ 24 ∧ float32 (1 / 10) = 13421773 / 2 ^ 27 ∧
    ((NewRGBA (11744051 / 2 ^ 24) 0 0 1).Mix (NewRGBA (13421773 / 2 ^ 27) 0 0 1) 5).R
      = 838861 / 2 ^ 23 ∧
    (NewRGBA (11744051 / 2 ^ 24) 0 0 1).Mix (NewRGBA (13421773 / 2 ^ 27) 0 0 1) 5
      ≠ NewRGBA (13421773 / 2 ^ 27) 0 0 1 := by
  have h7 : float32 (7 / 10) = 11744051 / 2 ^ 24 := by
    rw [float32_eq_of (7 / 10) (-1) (-24) 11744051 (by norm_num) (by norm_num)
      (by norm_num) (by norm_num [abs_lt])]
    norm_num
  have h1 : float32 (1 / 10) = 13421773 / 2 ^ 27 := by
    rw [float32_eq_of (1 / 10) (-4) (-27) 13421773 (by norm_num) (by norm_num)
      (by norm_num) (by norm_num [abs_lt])]
    norm_num
  have hd : float32 (13421773 / 2 ^ 27 - 11744051 / 2 ^ 24) = -(10066329 / 2 ^ 24) := by
    have e : (13421773 / 2 ^ 27 - 11744051 / 2 ^ 24 : ℚ) = -(80530635 / 2 ^ 27) := by norm_num
    rw [e, float32_neg, float32_eq_of (80530635 / 2 ^ 27) (-1) (-24) 10066329 (by norm_num)
      (by norm_num) (by norm_num) (by norm_num [abs_lt])]
    norm_num
  have hp : float32 (-(10066329 / 2 ^ 24) * 1) = -(10066329 / 2 ^ 24) := by
    rw [mul_one, ← hd, float32_idem]
  have hs : float32 (11744051 / 2 ^ 24 + -(10066329 / 2 ^ 24)) = 838861 / 2 ^ 23 := by
    have e : (11744051 / 2 ^ 24 + -(10066329 / 2 ^ 24) : ℚ) = 838861 / 2 ^ 23 := by norm_num
    rw [e, float32_eq_of (838861 / 2 ^ 23) (-4) (-27) 13421776 (by norm_num) (by norm_num)
      (by norm_num) (by norm_num [abs_lt])]
    norm_num
  have hc : bmath.ClampF32 5 0 1 = 1 := ClampF32_of_hi_le 5 0 1 (by norm_num) (by norm_num)
  have hR : ((NewRGBA (11744051 / 2 ^ 24) 0 0 1).Mix (NewRGBA (13421773 / 2 ^ 27) 0 0 1) 5).R
      = 838861 / 2 ^ 23 := by
    simp only [Color.Mix, NewRGBA, hc, hd, hp, hs]
  refine ⟨h7, h1, hR, ?_⟩
  intro heq
  rw [heq] at hR
  simp only [NewRGBA] at hR
  norm_num at hR

/-- C1, amended: `Mix` clamps `t` to `[0, 1]`. For every `t ≤ 0`,
`c.Mix(other, t)` equals `c.Mix(other, 0)`, whose channels are the `float32`
of the channels of `c`: it is `c` when the channels of `c` are `float32`
values. For every `t ≥ 1`, `c.Mix(other, t)` equals `c.Mix(other, 1)`, whose
channel `X` is `float32(c.X + float32(other.X - c.X))`: it is `other` when the
channels of `other` are `float32` values and the four differences
`other.X - c.X` are exact in `float32`. -/
theorem Mix_clamps_t_float32 (c other : Color) (t : ℚ) :
    (t ≤ 0 →
      c.Mix other t = c.Mix other 0 ∧
      c.Mix other t = NewRGBA (float32 c.R) (float32 c.G) (float32 c.B) (float32 c.A) ∧
      (c.AllFloat32 → c.Mix other t = c)) ∧
    (1 ≤ t →
      c.Mix other t = c.Mix other 1 ∧
      c.Mix other t
        = NewRGBA (float32 (c.R + float32 (other.R - c.R)))
            (float32 (c.G + float32 (other.G - c.G)))
            (float32 (c.B + float32 (other.B - c.B)))
            (float32 (c.A + float32 (other.A - c.A))) ∧
      (other.AllFloat32 →
        (NewRGBA (other.R - c.R) (other.G - c.G) (other.B - c.B) (other.A - c.A)).AllFloat32 →
        c.Mix other t = other)) := by
  have h0 : bmath.ClampF32 0 0 1 = 0 := ClampF32_of_le_lo 0 0 1 (by norm_num) le_rfl
  have h1 : bmath.ClampF32 1 0 1 = 1 := ClampF32_of_hi_le 1 0 1 (by norm_num) le_rfl
  constructor
  · intro ht
    have hc : bmath.ClampF32 t 0 1 = 0 := ClampF32_of_le_lo t 0 1 (by norm_num) ht
    have hform : c.Mix other t
        = NewRGBA (float32 c.R) (float32 c.G) (float32 c.B) (float32 c.A) := by
      simp only [Color.Mix, hc, mul_zero, float32_zero, add_zero]
    refine ⟨?_, hform, ?_⟩
    · simp only [Color.Mix, hc, h0]
    · rintro ⟨hr, hg, hb, ha⟩
      rw [hform, hr.1, hg.1, hb.1, ha.1]
      rfl
  · intro ht
    have hc : bmath.ClampF32 t 0 1 = 1 := ClampF32_of_hi_le t 0 1 (by norm_num) ht
    have hform : c.Mix other t
        = NewRGBA (float32 (c.R + float32 (other.R - c.R)))
            (float32 (c.G + float32 (other.G - c.G)))
            (float32 (c.B + float32 (other.B - c.B)))
            (float32 (c.A + float32 (other.A - c.A))) := by
      simp only [Color.Mix, hc, mul_one, float32_idem]
    refine ⟨?_, hform, ?_⟩
    · simp only [Color.Mix, hc, h1]
    · rintro ⟨hr, hg, hb, ha⟩ ⟨dr, dg, db, da⟩
      have er := dr.1
      have eg := dg.1
      have eb := db.1
      have ea := da.1
      simp only [NewRGBA] at er eg eb ea
      rw [hform, er, eg, eb, ea]
      simp only [add_sub_cancel, hr.1, hg.1, hb.1, ha.1]
      rfl

/-- Witness for the amended C1 at `t = -5` and `t = 5`, mixing opaque red
towards a half-transparent blue: all channels and all four differences are
`float32` values, so the results are the receiver and `other`. -/
theorem Mix_clamps_t_float32_witness :
    ((-5 : ℚ) ≤ 0 ∧ (NewRGBA 1 0 0 1).AllFloat32 ∧
      (NewRGBA 1 0 0 1).Mix (NewRGBA 0 0 1 (1 / 2)) (-5) = NewRGBA 1 0 0 1) ∧
    ((1 : ℚ) ≤ 5 ∧ (NewRGBA 0 0 1 (1 / 2)).AllFloat32 ∧
      (NewRGBA 1 0 0 1).Mix (NewRGBA 0 0 1 (1 / 2)) 5 = NewRGBA 0 0 1 (1 / 2)) := by
  have f1 : IsFloat32 1 := ⟨float32_one, by norm_num [abs_lt]⟩
  have f0 : IsFloat32 0 := ⟨float32_zero, by norm_num⟩
  have fh : IsFloat32 (1 / 2) := ⟨float32_half, by norm_num [abs_lt]⟩
  have hc : (NewRGBA 1 0 0 1).AllFloat32 := ⟨f1, f0, f0, f1⟩
  have ho : (NewRGBA 0 0 1 (1 / 2)).AllFloat32 := ⟨f0, f0, f1, fh⟩
  have hd : (NewRGBA ((NewRGBA 0 0 1 (1 / 2)).R - (NewRGBA 1 0 0 1).R)
      ((NewRGBA 0 0 1 (1 / 2)).G - (NewRGBA 1 0 0 1).G)
      ((NewRGBA 0 0 1 (1 / 2)).B - (NewRGBA 1 0 0 1).B)
      ((NewRGBA 0 0 1 (1 / 2)).A - (NewRGBA 1 0 0 1).A)).AllFloat32 := by
    simp only [NewRGBA, Color.AllFloat32, IsFloat32]
    refine ⟨⟨?_, ?_⟩, ⟨?_, ?_⟩, ⟨?_, ?_⟩, ⟨?_, ?_⟩⟩
    · rw [zero_sub, float32_neg, float32_one]
    · norm_num [abs_lt]
    · rw [sub_zero, float32_zero]
    · norm_num
    · rw [sub_zero, float32_one]
    · norm_num [abs_lt]
    · have e : (1 / 2 - 1 : ℚ) = -(1 / 2) := by norm_num
      rw [e, float32_neg, float32_half]
    · norm_num [abs_lt]
  exact ⟨⟨by norm_num, hc,
      ((Mix_clamps_t_float32 (NewRGBA 1 0 0 1) (NewRGBA 0 0 1 (1 / 2)) (-5)).1
        (by norm_num)).2.2 hc⟩,
    ⟨by norm_num, ho,
      ((Mix_clamps_t_float32 (NewRGBA 1 0 0 1) (NewRGBA 0 0 1 (1 / 2)) 5).2
        (by norm_num)).2.2 ho hd⟩⟩

/-- C2: the integer round trip is exact. For every four 8-bit integers
`r, g, b, a`, `NewIRGBA(r,g,b,a).PackInt()` is the word
`a<<24 | b<<16 | g<<8 | r`. -/
theorem PackInt_NewIRGBA (r g b a : Fin 256) :
    (NewIRGBA r g b a).PackInt = a.val <<< 24 ||| b.val <<< 16 ||| g.val <<< 8 ||| r.val := by
  have key : ∀ n : Fin 256, toUint32 ((n.val : ℚ) / 255 * 255) = n.val := by
    intro n
    rw [div_mul_cancel₀ _ (by norm_num : (255 : ℚ) ≠ 0)]
    exact toUint32_natCast n.val (lt_trans n.isLt (by norm_num))
  simp only [Color.PackInt, NewIRGBA, key]
  rw [shl32_of_lt _ 24 a.isLt le_rfl, shl32_of_lt _ 16 b.isLt (by norm_num),
    shl32_of_lt _ 8 g.isLt (by norm_num)]

/-- The round trip of C2 at the specification's example:
`NewIRGBA(255,128,0,255).PackInt()` is `0xFF0080FF`. -/
theorem PackInt_NewIRGBA_witness :
    (NewIRGBA 255 128 0 255).PackInt = 0xFF0080FF := by
  rw [PackInt_NewIRGBA 255 128 0 255]
  decide

/-- C3, counterexample: `PackInt` does not clamp. The colour with `R = 2`
(what `NewRGB(1,0,0).Lighten(1)` returns) packs as `0xFF0001FE`: the red byte
is 254 where the clamped channel quantizes to 255, and the green byte is 1
where its own channel, 0, quantizes to 0. -/
theorem PackInt_clamp_counterexample :
    ((NewRGB 1 0 0).Lighten 1 = NewRGBA 2 0 0 1) ∧
    (NewRGBA 2 0 0 1).PackInt = 0xFF0001FE ∧
    byteOf (NewRGBA 2 0 0 1).PackInt 0 = 254 ∧ quantizeClamped 2 = 255 ∧
    byteOf (NewRGBA 2 0 0 1).PackInt 1 = 1 ∧ quantizeClamped 0 = 0 := by
  have e510 : toUint32 ((2 : ℚ) * 255) = 510 := by
    have := toUint32_natCast 510 (by norm_num)
    norm_num at this ⊢
    exact this
  have e255 : toUint32 ((1 : ℚ) * 255) = 255 := by
    have := toUint32_natCast 255 (by norm_num)
    norm_num at this ⊢
    exact this
  have e0 : toUint32 ((0 : ℚ) * 255) = 0 := by
    have := toUint32_natCast 0 (by norm_num)
    norm_num at this ⊢
    exact this
  have hp : (NewRGBA 2 0 0 1).PackInt = 0xFF0001FE := by
    simp only [Color.PackInt, NewRGBA, e510, e255, e0]
    decide
  refine ⟨?_, hp, ?_, ?_, ?_, ?_⟩
  · simp [Color.Lighten, NewRGB, NewRGBA, math32.Max]
    norm_num
  · rw [hp]; decide
  · unfold quantizeClamped
    rw [ClampF32_of_hi_le 2 0 1 (by norm_num) (by norm_num)]
    simp
  · rw [hp]; decide
  · unfold quantizeClamped
    rw [ClampF32_of_le_lo 0 0 1 (by norm_num) le_rfl]
    simp

/-- C3, amended: `PackInt` quantizes the channels as they are. For every
colour whose four channels already lie in `[0, 1]`, where clamping changes
nothing, each byte of the word is the quantization of its own clamped channel:
byte 0 of R, byte 1 of G, byte 2 of B, byte 3 of A. -/
theorem PackInt_bytes_of_inGamut (c : Color) (h : InGamut c) :
    byteOf c.PackInt 0 = quantizeClamped c.R ∧ byteOf c.PackInt 1 = quantizeClamped c.G ∧
    byteOf c.PackInt 2 = quantizeClamped c.B ∧ byteOf c.PackInt 3 = quantizeClamped c.A := by
  obtain ⟨hA, hB, hG, hR⟩ := byteOf_PackInt c h
  obtain ⟨⟨r0, r1⟩, ⟨g0, g1⟩, ⟨b0, b1⟩, ⟨a0, a1⟩⟩ := h
  unfold quantizeClamped
  rw [ClampF32_of_mem _ 0 1 r0 r1, ClampF32_of_mem _ 0 1 g0 g1, ClampF32_of_mem _ 0 1 b0 b1,
    ClampF32_of_mem _ 0 1 a0 a1]
  exact ⟨hR, hG, hB, hA⟩

/-- Witness for the amended C3 at the colour `(1, 1/2, 0, 1)`. -/
theorem PackInt_bytes_of_inGamut_witness :
    InGamut (NewRGBA 1 (1 / 2) 0 1) ∧
    byteOf (NewRGBA 1 (1 / 2) 0 1).PackInt 0 = quantizeClamped 1 ∧
    byteOf (NewRGBA 1 (1 / 2) 0 1).PackInt 1 = quantizeClamped (1 / 2) ∧
    byteOf (NewRGBA 1 (1 / 2) 0 1).PackInt 2 = quantizeClamped 0 ∧
    byteOf (NewRGBA 1 (1 / 2) 0 1).PackInt 3 = quantizeClamped 1 :=
  ⟨by simp [InGamut, NewRGBA]; norm_num,
    PackInt_bytes_of_inGamut (NewRGBA 1 (1 / 2) 0 1) (by simp [InGamut, NewRGBA]; norm_num)⟩

/-- C4: byte layout of `PackInt`. For every colour whose four channels are in
`[0, 1]`, each channel times 255 truncates to a value in `0..255`, the word is
`A'<<24 | B'<<16 | G'<<8 | R'` of these four values, it fits 32 bits, and
extracting byte 3, 2, 1, 0 recovers exactly the quantized A, B, G, R. -/
theorem PackInt_byte_layout (c : Color) (h : InGamut c) :
    (⌊c.R * 255⌋₊ ≤ 255 ∧ ⌊c.G * 255⌋₊ ≤ 255 ∧ ⌊c.B * 255⌋₊ ≤ 255 ∧ ⌊c.A * 255⌋₊ ≤ 255) ∧
    c.PackInt
      = ⌊c.A * 255⌋₊ <<< 24 ||| ⌊c.B * 255⌋₊ <<< 16 ||| ⌊c.G * 255⌋₊ <<< 8 ||| ⌊c.R * 255⌋₊ ∧
    c.PackInt < 2 ^ 32 ∧
    (byteOf c.PackInt 3 = ⌊c.A * 255⌋₊ ∧ byteOf c.PackInt 2 = ⌊c.B * 255⌋₊ ∧
      byteOf c.PackInt 1 = ⌊c.G * 255⌋₊ ∧ byteOf c.PackInt 0 = ⌊c.R * 255⌋₊) := by
  have hb := byteOf_PackInt c h
  have hs := PackInt_of_inGamut c h
  obtain ⟨⟨r0, r1⟩, ⟨g0, g1⟩, ⟨b0, b1⟩, ⟨a0, a1⟩⟩ := h
  have lr := (quantize_unit c.R r0 r1).2
  have lg := (quantize_unit c.G g0 g1).2
  have lb := (quantize_unit c.B b0 b1).2
  have la := (quantize_unit c.A a0 a1).2
  refine ⟨⟨lr, lg, lb, la⟩, ?_, ?_, hb⟩
  · rw [hs, shift_or_eq_sum _ _ _ _ (by omega) (by omega) (by omega)]
  · rw [hs]; omega

/-- Witness for C4 at the colour `(1/4, 1/2, 3/4, 1)`, which packs as
`0xFFBF7F3F`: bytes 255, 191, 127, 63 from the top. -/
theorem PackInt_byte_layout_witness :
    InGamut (NewRGBA (1 / 4) (1 / 2) (3 / 4) 1) ∧
    (NewRGBA (1 / 4) (1 / 2) (3 / 4) 1).PackInt = 0xFFBF7F3F ∧
    (byteOf (NewRGBA (1 / 4) (1 / 2) (3 / 4) 1).PackInt 3 = 255 ∧
      byteOf (NewRGBA (1 / 4) (1 / 2) (3 / 4) 1).PackInt 2 = 191 ∧
      byteOf (NewRGBA (1 / 4) (1 / 2) (3 / 4) 1).PackInt 1 = 127 ∧
      byteOf (NewRGBA (1 / 4) (1 / 2) (3 / 4) 1).PackInt 0 = 63) := by
  have hg : InGamut (NewRGBA (1 / 4) (1 / 2) (3 / 4) 1) := by
    simp [InGamut, NewRGBA]; norm_num
  have h := PackInt_byte_layout (NewRGBA (1 / 4) (1 / 2) (3 / 4) 1) hg
  have fr : ⌊(1 / 4 : ℚ) * 255⌋₊ = 63 := by
    rw [Nat.floor_eq_iff (by norm_num)]; norm_num
  have fg : ⌊(1 / 2 : ℚ) * 255⌋₊ = 127 := by
    rw [Nat.floor_eq_iff (by norm_num)]; norm_num
  have fb : ⌊(3 / 4 : ℚ) * 255⌋₊ = 191 := by
    rw [Nat.floor_eq_iff (by norm_num)]; norm_num
  have fa : ⌊(1 : ℚ) * 255⌋₊ = 255 := by simp
  simp only [NewRGBA, fr, fg, fb, fa] at h
  refine ⟨hg, ?_, h.2.2.2⟩
  simp only [NewRGBA]
  rw [h.2.1]
  decide

/-- C5, counterexample: `PackInt` does not round to the nearest integer. In the
colour `(1/4, 1/2, 999/1000, 1)` the channels times 255 are 63.75, 127.5 and
254.745; the bytes stored are 63, 127 and 254, while the nearest integers are
64, 128 and 255. -/
theorem PackInt_round_counterexample :
    (byteOf (NewRGBA (1 / 4) (1 / 2) (999 / 1000) 1).PackInt 0 = 63 ∧
      round ((1 / 4 : ℚ) * 255) = 64) ∧
    (byteOf (NewRGBA (1 / 4) (1 / 2) (999 / 1000) 1).PackInt 1 = 127 ∧
      round ((1 / 2 : ℚ) * 255) = 128) ∧
    (byteOf (NewRGBA (1 / 4) (1 / 2) (999 / 1000) 1).PackInt 2 = 254 ∧
      round ((999 / 1000 : ℚ) * 255) = 255) := by
  have hg : InGamut (NewRGBA (1 / 4) (1 / 2) (999 / 1000) 1) := by
    simp [InGamut, NewRGBA]; norm_num
  have h := byteOf_PackInt _ hg
  have fr : ⌊(1 / 4 : ℚ) * 255⌋₊ = 63 := by
    rw [Nat.floor_eq_iff (by norm_num)]; norm_num
  have fg : ⌊(1 / 2 : ℚ) * 255⌋₊ = 127 := by
    rw [Nat.floor_eq_iff (by norm_num)]; norm_num
  have fb : ⌊(999 / 1000 : ℚ) * 255⌋₊ = 254 := by
    rw [Nat.floor_eq_iff (by norm_num)]; norm_num
  simp only [NewRGBA, fr, fg, fb] at h
  refine ⟨⟨h.2.2.2, ?_⟩, ⟨h.2.2.1, ?_⟩, ⟨h.2.1, ?_⟩⟩
  · rw [round_eq, Int.floor_eq_iff]; norm_num
  · rw [round_eq, Int.floor_eq_iff]; norm_num
  · rw [round_eq, Int.floor_eq_iff]; norm_num

/-- C5, amended: `PackInt` quantizes by truncation. For every colour and every
channel whose value `x` is in `[0, 1]`, provided the channels packed below it
(none for R, R for G, R and G for B, R, G and B for A) are in `[0, 1]` as well,
the byte stored for that channel is the greatest integer not above `x * 255`
(so `byte ≤ x*255 < byte + 1`), and it is the nearest integer
`round (x * 255)` exactly when the fractional part of `x * 255` is below one
half. -/
theorem PackInt_truncates (c : Color) :
    ((0 ≤ c.R ∧ c.R ≤ 1) →
      ((((byteOf c.PackInt 0 : ℕ) : ℚ) ≤ c.R * 255 ∧ c.R * 255 < ((byteOf c.PackInt 0 : ℕ) : ℚ) + 1) ∧
        (((byteOf c.PackInt 0 : ℕ) : ℤ) = round (c.R * 255) ↔
          Int.fract (c.R * 255) < 1 / 2))) ∧
    ((0 ≤ c.R ∧ c.R ≤ 1) → (0 ≤ c.G ∧ c.G ≤ 1) →
      ((((byteOf c.PackInt 1 : ℕ) : ℚ) ≤ c.G * 255 ∧ c.G * 255 < ((byteOf c.PackInt 1 : ℕ) : ℚ) + 1) ∧
        (((byteOf c.PackInt 1 : ℕ) : ℤ) = round (c.G * 255) ↔
          Int.fract (c.G * 255) < 1 / 2))) ∧
    ((0 ≤ c.R ∧ c.R ≤ 1) → (0 ≤ c.G ∧ c.G ≤ 1) → (0 ≤ c.B ∧ c.B ≤ 1) →
      ((((byteOf c.PackInt 2 : ℕ) : ℚ) ≤ c.B * 255 ∧ c.B * 255 < ((byteOf c.PackInt 2 : ℕ) : ℚ) + 1) ∧
        (((byteOf c.PackInt 2 : ℕ) : ℤ) = round (c.B * 255) ↔
          Int.fract (c.B * 255) < 1 / 2))) ∧
    ((0 ≤ c.R ∧ c.R ≤ 1) → (0 ≤ c.G ∧ c.G ≤ 1) → (0 ≤ c.B ∧ c.B ≤ 1) →
      (0 ≤ c.A ∧ c.A ≤ 1) →
      ((((byteOf c.PackInt 3 : ℕ) : ℚ) ≤ c.A * 255 ∧ c.A * 255 < ((byteOf c.PackInt 3 : ℕ) : ℚ) + 1) ∧
        (((byteOf c.PackInt 3 : ℕ) : ℤ) = round (c.A * 255) ↔
          Int.fract (c.A * 255) < 1 / 2))) := by
  obtain ⟨p0, p1, p2, p3⟩ := byteOf_pack (toUint32 (c.A * 255)) (toUint32 (c.B * 255))
    (toUint32 (c.G * 255)) (toUint32 (c.R * 255))
  refine ⟨?_, ?_, ?_, ?_⟩
  · intro hR
    obtain ⟨er, lr⟩ := quantize_lt c.R hR
    have hb : byteOf c.PackInt 0 = ⌊c.R * 255⌋₊ := by
      simp only [Color.PackInt]
      rw [p0, Nat.mod_eq_of_lt lr, er]
    rw [hb]
    exact trunc_bounds _ (mul_nonneg hR.1 (by norm_num))
  · intro hR hG
    obtain ⟨_, lr⟩ := quantize_lt c.R hR
    obtain ⟨eg, lg⟩ := quantize_lt c.G hG
    have hb : byteOf c.PackInt 1 = ⌊c.G * 255⌋₊ := by
      simp only [Color.PackInt]
      rw [p1 lr, Nat.mod_eq_of_lt lg, eg]
    rw [hb]
    exact trunc_bounds _ (mul_nonneg hG.1 (by norm_num))
  · intro hR hG hB
    obtain ⟨_, lr⟩ := quantize_lt c.R hR
    obtain ⟨_, lg⟩ := quantize_lt c.G hG
    obtain ⟨eb, lb⟩ := quantize_lt c.B hB
    have hb : byteOf c.PackInt 2 = ⌊c.B * 255⌋₊ := by
      simp only [Color.PackInt]
      rw [p2 lr lg, Nat.mod_eq_of_lt lb, eb]
    rw [hb]
    exact trunc_bounds _ (mul_nonneg hB.1 (by norm_num))
  · intro hR hG hB hA
    obtain ⟨_, lr⟩ := quantize_lt c.R hR
    obtain ⟨_, lg⟩ := quantize_lt c.G hG
    obtain ⟨_, lb⟩ := quantize_lt c.B hB
    obtain ⟨ea, la⟩ := quantize_lt c.A hA
    have hb : byteOf c.PackInt 3 = ⌊c.A * 255⌋₊ := by
      simp only [Color.PackInt]
      rw [p3 lr lg lb, Nat.mod_eq_of_lt la, ea]
    rw [hb]
    exact trunc_bounds _ (mul_nonneg hA.1 (by norm_num))

/-- Witness for the amended C5 at the colour `(1/4, 1/2, 2, 1)`: the red and
green channels are in `[0, 1]` and their bytes are the truncations of 63.75
and 127.5, although the blue channel is out of range. -/
theorem PackInt_truncates_witness :
    ((0 : ℚ) ≤ 1 / 4 ∧ (1 / 4 : ℚ) ≤ 1) ∧ ((0 : ℚ) ≤ 1 / 2 ∧ (1 / 2 : ℚ) ≤ 1) ∧
    (((byteOf (NewRGBA (1 / 4) (1 / 2) 2 1).PackInt 0 : ℕ) : ℚ) ≤ 1 / 4 * 255 ∧
      (1 / 4 : ℚ) * 255 < ((byteOf (NewRGBA (1 / 4) (1 / 2) 2 1).PackInt 0 : ℕ) : ℚ) + 1) ∧
    (((byteOf (NewRGBA (1 / 4) (1 / 2) 2 1).PackInt 1 : ℕ) : ℚ) ≤ 1 / 2 * 255 ∧
      (1 / 2 : ℚ) * 255 < ((byteOf (NewRGBA (1 / 4) (1 / 2) 2 1).PackInt 1 : ℕ) : ℚ) + 1) := by
  have hr : (0 : ℚ) ≤ 1 / 4 ∧ (1 / 4 : ℚ) ≤ 1 := by norm_num
  have hg : (0 : ℚ) ≤ 1 / 2 ∧ (1 / 2 : ℚ) ≤ 1 := by norm_num
  have h := PackInt_truncates (NewRGBA (1 / 4) (1 / 2) 2 1)
  exact ⟨hr, hg, (h.1 hr).1, (h.2.1 hr hg).1⟩

/-- C6: scaling of `Lighten` and `Darken`. For every colour and every
`amount ≥ 0`, `Lighten(amount)` returns R, G, B each multiplied by
`1 + amount`, and `Darken(amount)` returns R, G, B each divided by
`1 + amount`. -/
theorem Lighten_Darken_scaling (c : Color) (amount : ℚ) (h : 0 ≤ amount) :
    ((c.Lighten amount).R = c.R * (1 + amount) ∧ (c.Lighten amount).G = c.G * (1 + amount) ∧
      (c.Lighten amount).B = c.B * (1 + amount)) ∧
    ((c.Darken amount).R = c.R / (1 + amount) ∧ (c.Darken amount).G = c.G / (1 + amount) ∧
      (c.Darken amount).B = c.B / (1 + amount)) := by
  simp only [Color.Lighten, Color.Darken, NewRGBA, Max_one_of_nonneg amount h, and_self]

/-- Witness for C6: `NewRGB(0.5,0.5,0.5).Lighten(1.0)` has every colour channel
1.0 and `NewRGB(0.5,0.5,0.5).Darken(1.0)` has every colour channel 0.25. -/
theorem Lighten_Darken_scaling_witness :
    (0 : ℚ) ≤ 1 ∧
    (((NewRGB (1 / 2) (1 / 2) (1 / 2)).Lighten 1).R = 1 ∧
      ((NewRGB (1 / 2) (1 / 2) (1 / 2)).Lighten 1).G = 1 ∧
      ((NewRGB (1 / 2) (1 / 2) (1 / 2)).Lighten 1).B = 1) ∧
    (((NewRGB (1 / 2) (1 / 2) (1 / 2)).Darken 1).R = 1 / 4 ∧
      ((NewRGB (1 / 2) (1 / 2) (1 / 2)).Darken 1).G = 1 / 4 ∧
      ((NewRGB (1 / 2) (1 / 2) (1 / 2)).Darken 1).B = 1 / 4) := by
  have h := Lighten_Darken_scaling (NewRGB (1 / 2) (1 / 2) (1 / 2)) 1 (by norm_num)
  have e1 : (NewRGB (1 / 2) (1 / 2) (1 / 2)).R * (1 + 1) = 1 := by norm_num [NewRGB, NewRGBA]
  have e2 : (NewRGB (1 / 2) (1 / 2) (1 / 2)).G * (1 + 1) = 1 := by norm_num [NewRGB, NewRGBA]
  have e3 : (NewRGB (1 / 2) (1 / 2) (1 / 2)).B * (1 + 1) = 1 := by norm_num [NewRGB, NewRGBA]
  have e4 : (NewRGB (1 / 2) (1 / 2) (1 / 2)).R / (1 + 1) = 1 / 4 := by
    norm_num [NewRGB, NewRGBA]
  have e5 : (NewRGB (1 / 2) (1 / 2) (1 / 2)).G / (1 + 1) = 1 / 4 := by
    norm_num [NewRGB, NewRGBA]
  have e6 : (NewRGB (1 / 2) (1 / 2) (1 / 2)).B / (1 + 1) = 1 / 4 := by
    norm_num [NewRGB, NewRGBA]
  rw [e1, e2, e3, e4, e5, e6] at h
  exact ⟨by norm_num, h⟩

/-- C7: the scale floor. For every colour and every `amount ≤ 0`, the scale
`Max(1, 1 + amount)` is 1, and `Darken(amount)` and `Lighten(amount)` return a
colour equal to the receiver in all four channels. -/
theorem Darken_Lighten_floor (c : Color) (amount : ℚ) (h : amount ≤ 0) :
    math32.Max 1 (1 + amount) = 1 ∧ c.Darken amount = c ∧ c.Lighten amount = c := by
  have hs := Max_one_of_nonpos amount h
  refine ⟨hs, ?_, ?_⟩
  · simp [Color.Darken, NewRGBA, hs]
  · simp [Color.Lighten, NewRGBA, hs]

/-- Witness for C7 at `amount = -3`. -/
theorem Darken_Lighten_floor_witness :
    (-3 : ℚ) ≤ 0 ∧
    (NewRGBA (1 / 2) (1 / 4) (3 / 4) (1 / 2)).Darken (-3) = NewRGBA (1 / 2) (1 / 4) (3 / 4) (1 / 2) ∧
    (NewRGBA (1 / 2) (1 / 4) (3 / 4) (1 / 2)).Lighten (-3)
      = NewRGBA (1 / 2) (1 / 4) (3 / 4) (1 / 2) :=
  ⟨by norm_num,
    (Darken_Lighten_floor (NewRGBA (1 / 2) (1 / 4) (3 / 4) (1 / 2)) (-3) (by norm_num)).2⟩

/-- C8: the clamp of `Lighten2`. For every colour and every amount, each of
the R, G, B channels of `c.Lighten2(amount)` is at most 1. -/
theorem Lighten2_le_one (c : Color) (amount : ℚ) :
    (c.Lighten2 amount).R ≤ 1 ∧ (c.Lighten2 amount).G ≤ 1 ∧ (c.Lighten2 amount).B ≤ 1 := by
  simp only [Color.Lighten2, NewRGBA, Min_eq_min]
  exact ⟨min_le_left _ _, min_le_left _ _, min_le_left _ _⟩

/-- The bound of C8 at the specification's example:
`NewRGB(0.9,0.9,0.9).Lighten2(1.0)` has no colour channel above 1. -/
theorem Lighten2_le_one_witness :
    ((NewRGB (9 / 10) (9 / 10) (9 / 10)).Lighten2 1).R ≤ 1 ∧
    ((NewRGB (9 / 10) (9 / 10) (9 / 10)).Lighten2 1).G ≤ 1 ∧
    ((NewRGB (9 / 10) (9 / 10) (9 / 10)).Lighten2 1).B ≤ 1 :=
  Lighten2_le_one (NewRGB (9 / 10) (9 / 10) (9 / 10)) 1

/-- C9: the formula of `Lighten2`. With the caller's amount `a`, the halved
amount is `a / 2` and the scale is `1 + a / 4`; each of R, G, B of
`c.Lighten2(a)` equals `min(1, channel * (1 + a/4) + a/2)`. -/
theorem Lighten2_formula (c : Color) (a : ℚ) :
    (c.Lighten2 a).R = min 1 (c.R * (1 + a / 4) + a / 2) ∧
    (c.Lighten2 a).G = min 1 (c.G * (1 + a / 4) + a / 2) ∧
    (c.Lighten2 a).B = min 1 (c.B * (1 + a / 4) + a / 2) := by
  have e1 : a * (1 / 2) = a / 2 := by ring
  have e2 : 1 + (1 / 2) * (a / 2) = 1 + a / 4 := by ring
  simp only [Color.Lighten2, NewRGBA, Min_eq_min, e1, e2, and_self]

/-- C10: sign dispatch of `Shade` and `Shade2`. `c.Shade(amount)` is
`c.Darken(-amount)` for a negative amount and `c.Lighten(amount)` otherwise;
`c.Shade2(amount)` is `c.Darken(-amount)` for a negative amount and
`c.Lighten2(amount)` otherwise. Hence for a negative amount both divide
R, G, B by `1 - amount`, and for a non-negative amount `Shade` multiplies
R, G, B by `1 + amount`. -/
theorem Shade_dispatch (c : Color) (amount : ℚ) :
    (c.Shade amount = if amount < 0 then c.Darken (-amount) else c.Lighten amount) ∧
    (c.Shade2 amount = if amount < 0 then c.Darken (-amount) else c.Lighten2 amount) ∧
    (amount < 0 →
      ((c.Shade amount).R = c.R / (1 - amount) ∧ (c.Shade amount).G = c.G / (1 - amount) ∧
        (c.Shade amount).B = c.B / (1 - amount)) ∧
      ((c.Shade2 amount).R = c.R / (1 - amount) ∧ (c.Shade2 amount).G = c.G / (1 - amount) ∧
        (c.Shade2 amount).B = c.B / (1 - amount))) ∧
    (0 ≤ amount →
      (c.Shade amount).R = c.R * (1 + amount) ∧ (c.Shade amount).G = c.G * (1 + amount) ∧
        (c.Shade amount).B = c.B * (1 + amount)) := by
  refine ⟨rfl, rfl, ?_, ?_⟩
  · intro h
    have hs : math32.Max 1 (1 + -amount) = 1 - amount := by
      rw [Max_one_of_nonneg (-amount) (by linarith)]; ring
    simp only [Color.Shade, Color.Shade2, if_pos h, Color.Darken, NewRGBA, hs, and_self]
  · intro h
    simp only [Color.Shade, if_neg (not_lt.mpr h), Color.Lighten, NewRGBA,
      Max_one_of_nonneg amount h, and_self]

/-- Witness for C10 at `amount = -1` (both shades halve the colour channels)
and `amount = 1` (`Shade` doubles them). -/
theorem Shade_dispatch_witness :
    ((-1 : ℚ) < 0 ∧
      (NewRGB (1 / 2) (1 / 4) 1).Shade (-1) = (NewRGB (1 / 2) (1 / 4) 1).Darken 1 ∧
      (NewRGB (1 / 2) (1 / 4) 1).Shade2 (-1) = (NewRGB (1 / 2) (1 / 4) 1).Darken 1 ∧
      ((NewRGB (1 / 2) (1 / 4) 1).Shade (-1)).R = 1 / 4 ∧
      ((NewRGB (1 / 2) (1 / 4) 1).Shade2 (-1)).R = 1 / 4) ∧
    ((0 : ℚ) ≤ 1 ∧
      (NewRGB (1 / 2) (1 / 4) 1).Shade 1 = (NewRGB (1 / 2) (1 / 4) 1).Lighten 1 ∧
      (NewRGB (1 / 2) (1 / 4) 1).Shade2 1 = (NewRGB (1 / 2) (1 / 4) 1).Lighten2 1 ∧
      ((NewRGB (1 / 2) (1 / 4) 1).Shade 1).R = 1) := by
  have hn := Shade_dispatch (NewRGB (1 / 2) (1 / 4) 1) (-1)
  have hp := Shade_dispatch (NewRGB (1 / 2) (1 / 4) 1) 1
  have n0 : (-1 : ℚ) < 0 := by norm_num
  have p0 : (0 : ℚ) ≤ 1 := by norm_num
  have p1 : ¬ (1 : ℚ) < 0 := by norm_num
  have e1 : (NewRGB (1 / 2) (1 / 4) 1).R / (1 - -1) = 1 / 4 := by norm_num [NewRGB, NewRGBA]
  have e2 : (NewRGB (1 / 2) (1 / 4) 1).R * (1 + 1) = 1 := by norm_num [NewRGB, NewRGBA]
  have d1 := hn.1
  have d2 := hn.2.1
  rw [if_pos n0, neg_neg] at d1 d2
  have l1 := hp.1
  have l2 := hp.2.1
  rw [if_neg p1] at l1 l2
  have q1 := (hn.2.2.1 n0).1.1
  have q2 := (hn.2.2.1 n0).2.1
  have q3 := (hp.2.2.2 p0).1
  rw [e1] at q1 q2
  rw [e2] at q3
  exact ⟨⟨n0, d1, d2, q1, q2⟩, ⟨p0, l1, l2, q3⟩⟩

/-- C12: `DarkenHSLuv` collapses lightness for non-negative amounts. For every
colour `c` with `RGBToHSLuv(c) = (h, s, l)` and every `amount ≥ 0`, the scale
`min(0, 1 - amount)` is zero or negative; whatever conversion `HSLuvToRGB` is,
the result is `NewHSLuvA(h, s, l * scale, c.A)`, hue and saturation unchanged,
and `l * scale ≤ 0` whenever `l ≥ 0`. -/
theorem DarkenHSLuv_collapses (RGBToHSLuv : ℚ → ℚ → ℚ → ℚ × ℚ × ℚ) (c : Color)
    (h s l amount : ℚ) (hc : RGBToHSLuv c.R c.G c.B = (h, s, l)) (_hamount : 0 ≤ amount) :
    min 0 (1 - amount) ≤ 0 ∧
    (∀ HSLuvToRGB : ℚ → ℚ → ℚ → ℚ × ℚ × ℚ,
      c.DarkenHSLuv RGBToHSLuv HSLuvToRGB amount
        = NewHSLuvA HSLuvToRGB h s (l * min 0 (1 - amount)) c.A) ∧
    (0 ≤ l → l * min 0 (1 - amount) ≤ 0) := by
  refine ⟨min_le_left _ _, ?_, ?_⟩
  · intro HSLuvToRGB
    simp only [Color.DarkenHSLuv, hc, Min_eq_min]
  · intro hl
    exact mul_nonpos_of_nonneg_of_nonpos hl (min_le_left _ _)

/-- Witness for C12: a colour of HSLuv reading `(0, 0, 50)` darkened by `1/4`
is handed over with lightness 0, and darkened by 3 with lightness -100. The
conversion back records its arguments. -/
theorem DarkenHSLuv_collapses_witness :
    (0 : ℚ) ≤ 1 / 4 ∧
    (NewL (1 / 2)).DarkenHSLuv (fun _ _ _ => (0, 0, 50)) (fun h s l => (h, s, l)) (1 / 4)
      = NewRGBA 0 0 0 1 ∧
    (NewL (1 / 2)).DarkenHSLuv (fun _ _ _ => (0, 0, 50)) (fun h s l => (h, s, l)) 3
      = NewRGBA 0 0 (-100) 1 := by
  have h1 := (DarkenHSLuv_collapses (fun _ _ _ => (0, 0, 50)) (NewL (1 / 2)) 0 0 50 (1 / 4)
    rfl (by norm_num)).2.1 (fun h s l => (h, s, l))
  have h2 := (DarkenHSLuv_collapses (fun _ _ _ => (0, 0, 50)) (NewL (1 / 2)) 0 0 50 3
    rfl (by norm_num)).2.1 (fun h s l => (h, s, l))
  have e1 : min (0 : ℚ) (1 - 1 / 4) = 0 := min_eq_left (by norm_num)
  have e2 : min (0 : ℚ) (1 - 3) = -2 := by rw [min_eq_right (by norm_num)]; norm_num
  rw [e1] at h1
  rw [e2] at h2
  refine ⟨by norm_num, ?_, ?_⟩
  · rw [h1]; norm_num [NewHSLuvA, NewRGBA, NewL, NewLA]
  · rw [h2]; norm_num [NewHSLuvA, NewRGBA, NewL, NewLA]

/-- C13, the code at a negative amount: the grey `NewL(0.5)` darkened by
`-1/2` is handed to the conversion with lightness exactly 0, whatever its
HSLuv lightness is: the scale `math32.Min(0, 1 - (-1/2))` is 0. -/
theorem DarkenHSLuv_negative_amount (RGBToHSLuv HSLuvToRGB : ℚ → ℚ → ℚ → ℚ × ℚ × ℚ) :
    math32.Min 0 (1 - (-1 / 2)) = 0 ∧
    (NewL (1 / 2)).DarkenHSLuv RGBToHSLuv HSLuvToRGB (-1 / 2)
      = NewHSLuvA HSLuvToRGB (RGBToHSLuv (1 / 2) (1 / 2) (1 / 2)).1
          (RGBToHSLuv (1 / 2) (1 / 2) (1 / 2)).2.1 0 1 := by
  have e : math32.Min 0 (1 - (-1 / 2)) = 0 := by
    rw [Min_eq_min]; exact min_eq_left (by norm_num)
  refine ⟨e, ?_⟩
  simp only [Color.DarkenHSLuv, e, mul_zero, NewL, NewLA, NewRGBA]

/-- C14, counterexample: at `amount = 0` the lightness handed over need not be
`l`, and can be below it. For a reading `RGBToHSLuv(c) = (0, 0, l)` with `l`
the `float64` of 0.1, the `float64` difference `100 - l` rounds to
`3514918771674317/2^45`, and `100` minus that is `3518437208883/2^45`, about
`0.09999999999999432`, which is less than `l`. The conversion back records its
arguments. -/
theorem LightenHSLuv_zero_counterexample :
    float64 (1 / 10) = 3602879701896397 / 2 ^ 55 ∧
    (NewL (1 / 2)).LightenHSLuv (fun _ _ _ => (0, 0, 3602879701896397 / 2 ^ 55))
        (fun h s l => (h, s, l)) 0
      = NewRGBA 0 0 (3518437208883 / 2 ^ 45) 1 ∧
    (3518437208883 / 2 ^ 45 : ℚ) < 3602879701896397 / 2 ^ 55 := by
  have hl : float64 (1 / 10) = 3602879701896397 / 2 ^ 55 := by
    rw [float64_eq_of (1 / 10) (-4) (-56) 7205759403792794 (by norm_num) (by norm_num)
      (by norm_num) (by norm_num [abs_lt])]
    norm_num
  have hu : float32 (1 - 0) = 1 := by rw [sub_zero, float32_one]
  have hA : float64 (100 - 3602879701896397 / 2 ^ 55) = 3514918771674317 / 2 ^ 45 := by
    rw [float64_eq_of (100 - 3602879701896397 / 2 ^ 55) 6 (-46) 7029837543348634
      (by norm_num) (by norm_num) (by norm_num) (by norm_num [abs_lt])]
    norm_num
  have hP : float64 (3514918771674317 / 2 ^ 45 * 1) = 3514918771674317 / 2 ^ 45 := by
    rw [mul_one, ← hA, float64_idem]
  have hE : float64 (100 - 3514918771674317 / 2 ^ 45) = 3518437208883 / 2 ^ 45 := by
    rw [float64_eq_of (100 - 3514918771674317 / 2 ^ 45) (-4) (-56) 7205759403792384
      (by norm_num) (by norm_num) (by norm_num) (by norm_num [abs_lt])]
    norm_num
  refine ⟨hl, ?_, by norm_num⟩
  simp only [Color.LightenHSLuv, NewHSLuvA, hu, hA, hP, hE, NewL, NewLA, NewRGBA]

/-- C14, amended: `LightenHSLuv` pulls lightness towards 100. For every colour
`c` with `RGBToHSLuv(c) = (h, s, l)`, whatever conversion `HSLuvToRGB` is, the
result is `NewHSLuvA(h, s, newL, c.A)`, hue and saturation unchanged, where
`newL` is `100 - (100 - l) * (1 - amount)` with `1 - amount` computed in
`float32` and the rest in `float64`. For `l` in `[0, 100]` and `amount` in
`[0, 1]`, `newL` lies between its value at `amount = 0` and 100, and is not
negative. At `amount = 0` the lightness is `float64(100 - float64(100 - l))`,
and at `amount = 1` it is 100. -/
theorem LightenHSLuv_toward_100_float (RGBToHSLuv : ℚ → ℚ → ℚ → ℚ × ℚ × ℚ) (c : Color)
    (h s l amount : ℚ) (hc : RGBToHSLuv c.R c.G c.B = (h, s, l)) :
    (∀ HSLuvToRGB : ℚ → ℚ → ℚ → ℚ × ℚ × ℚ,
      c.LightenHSLuv RGBToHSLuv HSLuvToRGB amount
        = NewHSLuvA HSLuvToRGB h s
            (float64 (100 - float64 (float64 (100 - l) * float32 (1 - amount)))) c.A) ∧
    (0 ≤ l → l ≤ 100 → 0 ≤ amount → amount ≤ 1 →
      float64 (100 - float64 (100 - l))
        ≤ float64 (100 - float64 (float64 (100 - l) * float32 (1 - amount))) ∧
      float64 (100 - float64 (float64 (100 - l) * float32 (1 - amount))) ≤ 100 ∧
      0 ≤ float64 (100 - float64 (float64 (100 - l) * float32 (1 - amount)))) ∧
    (∀ HSLuvToRGB : ℚ → ℚ → ℚ → ℚ × ℚ × ℚ,
      c.LightenHSLuv RGBToHSLuv HSLuvToRGB 0
        = NewHSLuvA HSLuvToRGB h s (float64 (100 - float64 (100 - l))) c.A) ∧
    (∀ HSLuvToRGB : ℚ → ℚ → ℚ → ℚ × ℚ × ℚ,
      c.LightenHSLuv RGBToHSLuv HSLuvToRGB 1 = NewHSLuvA HSLuvToRGB h s 100 c.A) := by
  refine ⟨?_, ?_, ?_, ?_⟩
  · intro HSLuvToRGB
    simp only [Color.LightenHSLuv, hc]
  · intro l0 l1 a0 a1
    exact lighten_lightness_bounds l amount l0 l1 a0 a1
  · intro HSLuvToRGB
    simp only [Color.LightenHSLuv, hc, sub_zero, float32_one, mul_one, float64_idem]
  · intro HSLuvToRGB
    simp only [Color.LightenHSLuv, hc, sub_self, float32_zero, mul_zero, float64_zero,
      sub_zero, float64_100]

/-- Witness for the amended C14: a colour of HSLuv reading `(0, 0, 50)`
lightened by `1/2` is handed over with lightness 75, which lies between 50 and
100. Every operation is exact here. The conversion back records its
arguments. -/
theorem LightenHSLuv_toward_100_float_witness :
    ((0 : ℚ) ≤ 50 ∧ (50 : ℚ) ≤ 100 ∧ (0 : ℚ) ≤ 1 / 2 ∧ (1 / 2 : ℚ) ≤ 1) ∧
    (NewL (1 / 2)).LightenHSLuv (fun _ _ _ => (0, 0, 50)) (fun h s l => (h, s, l)) (1 / 2)
      = NewRGBA 0 0 75 1 ∧
    (float64 (100 - float64 (100 - 50)) ≤ 75 ∧ (75 : ℚ) ≤ 100 ∧ (0 : ℚ) ≤ 75) := by
  have h := LightenHSLuv_toward_100_float (fun _ _ _ => (0, 0, 50)) (NewL (1 / 2)) 0 0 50
    (1 / 2) rfl
  have fu : float32 (1 - 1 / 2) = 1 / 2 := by
    have e : (1 - 1 / 2 : ℚ) = 1 / 2 := by norm_num
    rw [e, float32_half]
  have f50 : float64 (100 - 50) = 50 := by
    have e : (100 - 50 : ℚ) = 50 := by norm_num
    rw [e, float64_eq_of 50 5 (-47) (50 * 2 ^ 47) (by norm_num) (by norm_num) (by norm_num)
      (by norm_num [abs_lt])]
    norm_num
  have f25 : float64 (50 * (1 / 2)) = 25 := by
    have e : (50 * (1 / 2) : ℚ) = 25 := by norm_num
    rw [e, float64_eq_of 25 4 (-48) (25 * 2 ^ 48) (by norm_num) (by norm_num) (by norm_num)
      (by norm_num [abs_lt])]
    norm_num
  have f75 : float64 (100 - 25) = 75 := by
    have e : (100 - 25 : ℚ) = 75 := by norm_num
    rw [e, float64_eq_of 75 6 (-46) (75 * 2 ^ 46) (by norm_num) (by norm_num) (by norm_num)
      (by norm_num [abs_lt])]
    norm_num
  have hb := h.2.1 (by norm_num) (by norm_num) (by norm_num) (by norm_num)
  have hv := h.1 (fun h s l => (h, s, l))
  rw [fu, f50, f25, f75] at hb hv
  rw [f50]
  refine ⟨by norm_num, ?_, hb⟩
  rw [hv]
  norm_num [NewHSLuvA, NewRGBA, NewL, NewLA]

/-- C15: alpha is a frame of every shading transform. For every colour and
every argument, and whatever the colour-space conversions are, the results of
`Darken`, `Lighten`, `Lighten2`, `Shade`, `Shade2`, `Shift`, `DarkenHSLuv`,
`LightenHSLuv` and `ShadeHSLuv` have alpha equal to `c.A`. -/
theorem alpha_frame (RGBToHSV HSVToRGB RGBToHSLuv HSLuvToRGB : ℚ → ℚ → ℚ → ℚ × ℚ × ℚ)
    (c : Color) (amount dh ds dv : ℚ) :
    (c.Darken amount).A = c.A ∧ (c.Lighten amount).A = c.A ∧ (c.Lighten2 amount).A = c.A ∧
    (c.Shade amount).A = c.A ∧ (c.Shade2 amount).A = c.A ∧
    (c.Shift RGBToHSV HSVToRGB dh ds dv).A = c.A ∧
    (c.DarkenHSLuv RGBToHSLuv HSLuvToRGB amount).A = c.A ∧
    (c.LightenHSLuv RGBToHSLuv HSLuvToRGB amount).A = c.A ∧
    (c.ShadeHSLuv RGBToHSLuv HSLuvToRGB amount).A = c.A := by
  refine ⟨rfl, rfl, rfl, ?_, ?_, rfl, rfl, rfl, ?_⟩
  · unfold Color.Shade
    split_ifs <;> rfl
  · unfold Color.Shade2
    split_ifs <;> rfl
  · unfold Color.ShadeHSLuv
    split_ifs <;> rfl

/-- C16: `Darken` undoes `Lighten`. For every colour and every amount, the
divisor `Max(1, 1 + amount)` is at least 1 and so never zero, and over exact
arithmetic `c.Lighten(amount).Darken(amount) = c` and
`c.Darken(amount).Lighten(amount) = c` in all four channels. -/
theorem Darken_Lighten_inverse (c : Color) (amount : ℚ) :
    1 ≤ math32.Max 1 (1 + amount) ∧ math32.Max 1 (1 + amount) ≠ 0 ∧
    (c.Lighten amount).Darken amount = c ∧ (c.Darken amount).Lighten amount = c := by
  have h1 := Max_one_ge amount
  have hne : math32.Max 1 (1 + amount) ≠ 0 := by
    intro h0
    rw [h0] at h1
    exact absurd h1 (by norm_num)
  refine ⟨h1, hne, ?_, ?_⟩
  · simp only [Color.Lighten, Color.Darken, NewRGBA, mul_div_assoc, div_self hne, mul_one]
  · simp only [Color.Lighten, Color.Darken, NewRGBA, div_mul_cancel₀ _ hne]

/-- C17: `Shade2` keeps colours in gamut. For every colour whose R, G, B are in
`[0, 1]` and every amount, R, G, B of `c.Shade2(amount)` are again in `[0, 1]`;
for `amount ≥ 0` each is at least the corresponding channel of `c`, and for
`amount < 0` at most it. -/
theorem Shade2_in_gamut (c : Color) (amount : ℚ) (hR : 0 ≤ c.R ∧ c.R ≤ 1)
    (hG : 0 ≤ c.G ∧ c.G ≤ 1) (hB : 0 ≤ c.B ∧ c.B ≤ 1) :
    ((0 ≤ (c.Shade2 amount).R ∧ (c.Shade2 amount).R ≤ 1) ∧
      (0 ≤ (c.Shade2 amount).G ∧ (c.Shade2 amount).G ≤ 1) ∧
      (0 ≤ (c.Shade2 amount).B ∧ (c.Shade2 amount).B ≤ 1)) ∧
    (0 ≤ amount →
      c.R ≤ (c.Shade2 amount).R ∧ c.G ≤ (c.Shade2 amount).G ∧ c.B ≤ (c.Shade2 amount).B) ∧
    (amount < 0 →
      (c.Shade2 amount).R ≤ c.R ∧ (c.Shade2 amount).G ≤ c.G ∧ (c.Shade2 amount).B ≤ c.B) := by
  rcases lt_or_le amount 0 with ha | ha
  · have hs : 1 ≤ math32.Max 1 (1 + -amount) := Max_one_ge (-amount)
    obtain ⟨r0, r1⟩ := darken_channel c.R _ hR.1 hs
    obtain ⟨g0, g1⟩ := darken_channel c.G _ hG.1 hs
    obtain ⟨b0, b1⟩ := darken_channel c.B _ hB.1 hs
    simp only [Color.Shade2, if_pos ha, Color.Darken, NewRGBA]
    exact ⟨⟨⟨r0, r1.trans hR.2⟩, ⟨g0, g1.trans hG.2⟩, ⟨b0, b1.trans hB.2⟩⟩,
      fun h => absurd ha (not_lt.mpr h), fun _ => ⟨r1, g1, b1⟩⟩
  · obtain ⟨r0, r1⟩ := lighten2_channel c.R amount hR.1 hR.2 ha
    obtain ⟨g0, g1⟩ := lighten2_channel c.G amount hG.1 hG.2 ha
    obtain ⟨b0, b1⟩ := lighten2_channel c.B amount hB.1 hB.2 ha
    simp only [Color.Shade2, if_neg (not_lt.mpr ha), Color.Lighten2, NewRGBA]
    exact ⟨⟨⟨hR.1.trans r0, r1⟩, ⟨hG.1.trans g0, g1⟩, ⟨hB.1.trans b0, b1⟩⟩,
      fun _ => ⟨r0, g0, b0⟩, fun h => absurd h (not_lt.mpr ha)⟩

/-- Witness for C17 at the colour `(1/2, 1/4, 1)` with amounts `1` and `-1`. -/
theorem Shade2_in_gamut_witness :
    (((0 : ℚ) ≤ 1 / 2 ∧ (1 / 2 : ℚ) ≤ 1) ∧ ((0 : ℚ) ≤ 1 / 4 ∧ (1 / 4 : ℚ) ≤ 1) ∧
      ((0 : ℚ) ≤ 1 ∧ (1 : ℚ) ≤ 1)) ∧
    ((0 : ℚ) ≤ 1 ∧
      (1 / 2 ≤ ((NewRGB (1 / 2) (1 / 4) 1).Shade2 1).R ∧
        ((NewRGB (1 / 2) (1 / 4) 1).Shade2 1).R ≤ 1)) ∧
    ((-1 : ℚ) < 0 ∧
      (0 ≤ ((NewRGB (1 / 2) (1 / 4) 1).Shade2 (-1)).R ∧
        ((NewRGB (1 / 2) (1 / 4) 1).Shade2 (-1)).R ≤ 1 / 2)) := by
  have hr : (0 : ℚ) ≤ 1 / 2 ∧ (1 / 2 : ℚ) ≤ 1 := by norm_num
  have hg : (0 : ℚ) ≤ 1 / 4 ∧ (1 / 4 : ℚ) ≤ 1 := by norm_num
  have hb : (0 : ℚ) ≤ 1 ∧ (1 : ℚ) ≤ 1 := by norm_num
  have hp := Shade2_in_gamut (NewRGB (1 / 2) (1 / 4) 1) 1 hr hg hb
  have hn := Shade2_in_gamut (NewRGB (1 / 2) (1 / 4) 1) (-1) hr hg hb
  have p0 : (0 : ℚ) ≤ 1 := by norm_num
  have n0 : (-1 : ℚ) < 0 := by norm_num
  exact ⟨⟨hr, hg, hb⟩, ⟨p0, (hp.2.1 p0).1, hp.1.1.2⟩, ⟨n0, hn.1.1.1, (hn.2.2 n0).1⟩⟩

/-- C18: `ShadeHSLuv` with a negative amount never yields a positive lightness.
For every colour `c` with `RGBToHSLuv(c) = (h, s, l)`, `l ≥ 0`, and every
`amount < 0`, whatever conversion `HSLuvToRGB` is, the result is
`NewHSLuvA(h, s, l * min(0, 1 + amount), c.A)`; that lightness is exactly 0 for
`-1 ≤ amount < 0` and is at most 0 for `amount < -1`. -/
theorem ShadeHSLuv_negative (RGBToHSLuv : ℚ → ℚ → ℚ → ℚ × ℚ × ℚ) (c : Color)
    (h s l amount : ℚ) (hc : RGBToHSLuv c.R c.G c.B = (h, s, l)) (hl : 0 ≤ l)
    (ha : amount < 0) :
    (∀ HSLuvToRGB : ℚ → ℚ → ℚ → ℚ × ℚ × ℚ,
      c.ShadeHSLuv RGBToHSLuv HSLuvToRGB amount
        = NewHSLuvA HSLuvToRGB h s (l * min 0 (1 + amount)) c.A) ∧
    (-1 ≤ amount → l * min 0 (1 + amount) = 0) ∧
    (amount < -1 → l * min 0 (1 + amount) ≤ 0) ∧
    l * min 0 (1 + amount) ≤ 0 := by
  refine ⟨?_, ?_, ?_, ?_⟩
  · intro HSLuvToRGB
    simp only [Color.ShadeHSLuv, if_pos ha, Color.DarkenHSLuv, hc, Min_eq_min, sub_neg_eq_add]
  · intro h1
    rw [min_eq_left (by linarith), mul_zero]
  · intro _
    exact mul_nonpos_of_nonneg_of_nonpos hl (min_le_left _ _)
  · exact mul_nonpos_of_nonneg_of_nonpos hl (min_le_left _ _)

/-- Witness for C18: a colour of HSLuv reading `(0, 0, 50)` shaded by `-1/10`
is handed over with lightness 0, and shaded by `-3` with lightness -100. The
conversion back records its arguments. -/
theorem ShadeHSLuv_negative_witness :
    ((0 : ℚ) ≤ 50 ∧ (-1 / 10 : ℚ) < 0 ∧ (-1 : ℚ) ≤ -1 / 10 ∧
      (NewL (1 / 2)).ShadeHSLuv (fun _ _ _ => (0, 0, 50)) (fun h s l => (h, s, l)) (-1 / 10)
        = NewRGBA 0 0 0 1) ∧
    ((-3 : ℚ) < 0 ∧ (-3 : ℚ) < -1 ∧
      (NewL (1 / 2)).ShadeHSLuv (fun _ _ _ => (0, 0, 50)) (fun h s l => (h, s, l)) (-3)
        = NewRGBA 0 0 (-100) 1) := by
  have h1 := ShadeHSLuv_negative (fun _ _ _ => (0, 0, 50)) (NewL (1 / 2)) 0 0 50 (-1 / 10)
    rfl (by norm_num) (by norm_num)
  have h2 := ShadeHSLuv_negative (fun _ _ _ => (0, 0, 50)) (NewL (1 / 2)) 0 0 50 (-3)
    rfl (by norm_num) (by norm_num)
  have e1 := h1.2.1 (by norm_num)
  have e2 : (50 : ℚ) * min 0 (1 + -3) = -100 := by
    rw [min_eq_right (by norm_num)]; norm_num
  have q1 := h1.1 (fun h s l => (h, s, l))
  have q2 := h2.1 (fun h s l => (h, s, l))
  rw [e1] at q1
  rw [e2] at q2
  refine ⟨⟨by norm_num, by norm_num, by norm_num, ?_⟩, ⟨by norm_num, by norm_num, ?_⟩⟩
  · rw [q1]; norm_num [NewHSLuvA, NewRGBA, NewL, NewLA]
  · rw [q2]; norm_num [NewHSLuvA, NewRGBA, NewL, NewLA]

/-- C19, counterexample: `Mix` can leave the interval between the two colours.
With the `float32` values of 0.9 and 0.2 in the red channel and `t = 5`, the
difference `0.2 - 0.9` rounds to `-11744051/2^24`, and adding it back to 0.9
gives `3355443/2^24`, which is below both 0.9 and the `float32` of 0.2. -/
theorem Mix_convex_counterexample :
    float32 (9 / 10) = 7549747 / 2 ^ 23 ∧ float32 (2 / 10) = 13421773 / 2 ^ 26 ∧
    ((NewRGBA (7549747 / 2 ^ 23) 0 0 1).Mix (NewRGBA (13421773 / 2 ^ 26) 0 0 1) 5).R
      = 3355443 / 2 ^ 24 ∧
    ((NewRGBA (7549747 / 2 ^ 23) 0 0 1).Mix (NewRGBA (13421773 / 2 ^ 26) 0 0 1) 5).R
      < min (NewRGBA (7549747 / 2 ^ 23) 0 0 1).R (NewRGBA (13421773 / 2 ^ 26) 0 0 1).R := by
  have h9 : float32 (9 / 10) = 7549747 / 2 ^ 23 := by
    rw [float32_eq_of (9 / 10) (-1) (-24) 15099494 (by norm_num) (by norm_num)
      (by norm_num) (by norm_num [abs_lt])]
    norm_num
  have h2 : float32 (2 / 10) = 13421773 / 2 ^ 26 := by
    rw [float32_eq_of (2 / 10) (-3) (-26) 13421773 (by norm_num) (by norm_num)
      (by norm_num) (by norm_num [abs_lt])]
    norm_num
  have hd : float32 (13421773 / 2 ^ 26 - 7549747 / 2 ^ 23) = -(11744051 / 2 ^ 24) := by
    have e : (13421773 / 2 ^ 26 - 7549747 / 2 ^ 23 : ℚ) = -(46976203 / 2 ^ 26) := by norm_num
    rw [e, float32_neg, float32_eq_of (46976203 / 2 ^ 26) (-1) (-24) 11744051 (by norm_num)
      (by norm_num) (by norm_num) (by norm_num [abs_lt])]
    norm_num
  have hp : float32 (-(11744051 / 2 ^ 24) * 1) = -(11744051 / 2 ^ 24) := by
    rw [mul_one, ← hd, float32_idem]
  have hs : float32 (7549747 / 2 ^ 23 + -(11744051 / 2 ^ 24)) = 3355443 / 2 ^ 24 := by
    have e : (7549747 / 2 ^ 23 + -(11744051 / 2 ^ 24) : ℚ) = 3355443 / 2 ^ 24 := by norm_num
    rw [e, float32_eq_of (3355443 / 2 ^ 24) (-3) (-26) 13421772 (by norm_num) (by norm_num)
      (by norm_num) (by norm_num [abs_lt])]
    norm_num
  have hc : bmath.ClampF32 5 0 1 = 1 := ClampF32_of_hi_le 5 0 1 (by norm_num) (by norm_num)
  have hR : ((NewRGBA (7549747 / 2 ^ 23) 0 0 1).Mix (NewRGBA (13421773 / 2 ^ 26) 0 0 1) 5).R
      = 3355443 / 2 ^ 24 := by
    simp only [Color.Mix, NewRGBA, hc, hd, hp, hs]
  refine ⟨h9, h2, hR, ?_⟩
  rw [hR]
  simp only [NewRGBA]
  rw [lt_min_iff]
  constructor <;> norm_num

/-- C19, amended: `Mix` stays between its two ends. For every pair of colours
and every `t`, inside or outside `[0, 1]`, each of the four channels of
`c.Mix(other, t)` lies between the corresponding channels of `c.Mix(other, 0)`
and `c.Mix(other, 1)`, where channel `X` of `c.Mix(other, 0)` is `float32(c.X)`
and channel `X` of `c.Mix(other, 1)` is `float32(c.X + float32(other.X - c.X))`. -/
theorem Mix_between_ends (c other : Color) (t : ℚ) :
    ((min (c.Mix other 0).R (c.Mix other 1).R ≤ (c.Mix other t).R ∧
        (c.Mix other t).R ≤ max (c.Mix other 0).R (c.Mix other 1).R) ∧
      (min (c.Mix other 0).G (c.Mix other 1).G ≤ (c.Mix other t).G ∧
        (c.Mix other t).G ≤ max (c.Mix other 0).G (c.Mix other 1).G) ∧
      (min (c.Mix other 0).B (c.Mix other 1).B ≤ (c.Mix other t).B ∧
        (c.Mix other t).B ≤ max (c.Mix other 0).B (c.Mix other 1).B) ∧
      (min (c.Mix other 0).A (c.Mix other 1).A ≤ (c.Mix other t).A ∧
        (c.Mix other t).A ≤ max (c.Mix other 0).A (c.Mix other 1).A)) ∧
    c.Mix other 0 = NewRGBA (float32 c.R) (float32 c.G) (float32 c.B) (float32 c.A) ∧
    c.Mix other 1
      = NewRGBA (float32 (c.R + float32 (other.R - c.R)))
          (float32 (c.G + float32 (other.G - c.G)))
          (float32 (c.B + float32 (other.B - c.B)))
          (float32 (c.A + float32 (other.A - c.A))) := by
  have h0 : bmath.ClampF32 0 0 1 = 0 := ClampF32_of_le_lo 0 0 1 (by norm_num) le_rfl
  have h1 : bmath.ClampF32 1 0 1 = 1 := ClampF32_of_hi_le 1 0 1 (by norm_num) le_rfl
  obtain ⟨t0, t1⟩ := ClampF32_unit_mem t
  refine ⟨?_, ?_, ?_⟩
  · simp only [Color.Mix, NewRGBA, h0, h1]
    exact ⟨mix_channel_between _ _ _ t0 t1, mix_channel_between _ _ _ t0 t1,
      mix_channel_between _ _ _ t0 t1, mix_channel_between _ _ _ t0 t1⟩
  · simp only [Color.Mix, h0, mul_zero, float32_zero, add_zero]
  · simp only [Color.Mix, h1, mul_one, float32_idem]

end color

namespace settings

/-- C20: the display-size accessors agree and select by the fullscreen flag.
For every graphics value, `GetSize() = (GetWidth(), GetHeight())`, which is
`(Width, Height)` when `Fullscreen` is true and `(WindowWidth, WindowHeight)`
otherwise; the default configuration built by `initGraphics` is not fullscreen
and reports size `(1280, 720)`. -/
theorem GetSize_agrees (gr : graphics) :
    gr.GetSize = (gr.GetWidth, gr.GetHeight) ∧
    gr.GetSize
      = (if gr.Fullscreen = true then (gr.Width, gr.Height)
          else (gr.WindowWidth, gr.WindowHeight)) ∧
    initGraphics.Fullscreen = false ∧ initGraphics.GetSize = (1280, 720) ∧
    (initGraphics.GetWidth, initGraphics.GetHeight) = (1280, 720) := by
  refine ⟨?_, rfl, rfl, rfl, rfl⟩
  unfold graphics.GetSize graphics.GetWidth graphics.GetHeight
  cases gr.Fullscreen <;> rfl

end settings
